import Mathlib

/-!
# mountmgr.sys dynamic devices (dlls/mountmgr.sys/device.c)

A shallow embedding of the drive-letter allocator, the disk-device lifecycle
functions and the ioctl handler of `device.c`, with theorems about them.

Modelling conventions

* `int` values (drive letters, the `-1` sentinel) are `Int`; `DWORD`/`UINT`
  values are `Nat`.
* The Unix system calls are an interface `Sys σ` over an arbitrary state `σ`:
  every call may change the state, which covers concurrent activity of other
  processes.  `posix` is the interference-free instance over a concrete
  filesystem `FS`.
* The path buffer returned by `get_dosdevices_path` is the constructor
  `Path.dev drive` (`<config>/dosdevices/<x>::`, after `*p = 'a' + drive`) or
  `Path.mnt drive` (`<config>/dosdevices/<x>:`, after `p[2] = 0`).
* A `struct dos_drive *` is a position in `drives_list`.
* Heap allocation is taken to succeed.
* The `while` loop of `add_drive` has no bound in the source; it is run with
  fuel, and `none` as result means the fuel ran out.
-/

namespace Mountmgr

/-! ## Constants of the platform headers -/

def DRIVE_UNKNOWN : Nat := 0
def DRIVE_NO_ROOT_DIR : Nat := 1
def DRIVE_REMOVABLE : Nat := 2
def DRIVE_FIXED : Nat := 3
def DRIVE_REMOTE : Nat := 4
def DRIVE_CDROM : Nat := 5
def DRIVE_RAMDISK : Nat := 6

def MAX_DOS_DRIVES : Nat := 26

def FILE_DEVICE_CD_ROM : Nat := 0x00000002
def FILE_DEVICE_DISK : Nat := 0x00000007

def STATUS_SUCCESS : Nat := 0
def STATUS_INVALID_DEVICE_REQUEST : Nat := 0xC0000010
def STATUS_OBJECT_NAME_COLLISION : Nat := 0xC0000035
def STATUS_NOT_SUPPORTED : Nat := 0xC00000BB

def IOCTL_DISK_GET_DRIVE_GEOMETRY : Nat := 0x00070000
def IOCTL_STORAGE_GET_DEVICE_NUMBER : Nat := 0x002D1080
def IOCTL_CDROM_READ_TOC : Nat := 0x00024000

/-- MEDIA_TYPE values of winioctl.h used by the geometry reply. -/
def RemovableMedia : Nat := 11
def FixedMedia : Nat := 12

def DBT_DEVICEARRIVAL : Nat := 0x8000
def DBT_DEVICEREMOVECOMPLETE : Nat := 0x8004

/-- The table `drive_types` of registry names, indexed by drive type. -/
def drive_types : List String :=
  ["", "", "floppy", "hd", "network", "cdrom", "ramdisk"]

/-! ## The system-call interface -/

inductive Errno where
  | ENOENT
  | EEXIST
  | EACCES
  | EISDIR
  | EINVAL
  deriving DecidableEq, Repr

/-- File kinds distinguished by `st_mode`. -/
inductive FileKind where
  | blk
  | chr
  | dir
  | reg
  deriving DecidableEq, Repr

/-- The fields of `struct stat` that the code reads. -/
structure stat_t where
  st_mode : FileKind
  st_rdev : Nat
  deriving DecidableEq, Repr

/-- Paths the code passes to system calls. -/
inductive Path where
  | unix (p : String)
  | dev (drive : Int)
  | mnt (drive : Int)
  deriving DecidableEq, Repr

/-- The system calls used by device.c, as state transformers. -/
structure Sys (σ : Type) where
  stat : Path → σ → Except Errno stat_t × σ
  lstat : Path → σ → Except Errno stat_t × σ
  symlink : String → Path → σ → Except Errno Unit × σ
  unlink : Path → σ → Except Errno Unit × σ
  readlink : Path → σ → Except Errno String × σ

/-- `is_valid_device`, the `linux` branch: block devices. -/
def is_valid_device (st : stat_t) : Bool :=
  st.st_mode == FileKind.blk

/-! ## add_drive -/

/-- How one pass of the `for` loop of `add_drive` ends: at `goto done` with
the loop variable, or by running to `last` with the marks and `avail`. -/
inductive ScanEnd where
  | done (drive : Int)
  | finished (in_use : Int → Bool) (avail : Int)

/-- The `for (drive = first; drive < last; drive++)` loop of `add_drive`,
with `n` letters left to visit starting at `drive`. -/
def add_drive_scan {σ : Type} (sys : Sys σ) (dev_st : stat_t) :
    Nat → Int → (Int → Bool) → Int → σ → ScanEnd × σ
  | 0, _, in_use, avail, s => (ScanEnd.finished in_use avail, s)
  | n + 1, drive, in_use, avail, s =>
    if in_use drive then add_drive_scan sys dev_st n (drive + 1) in_use avail s
    else
      match sys.stat (Path.dev drive) s with
      | (Except.error _, s1) =>
        match sys.lstat (Path.dev drive) s1 with
        | (Except.error Errno.ENOENT, s2) =>
          if avail == -1 then
            match sys.lstat (Path.mnt drive) s2 with
            | (Except.error Errno.ENOENT, s3) =>
              add_drive_scan sys dev_st n (drive + 1) in_use drive s3
            | (_, s3) => add_drive_scan sys dev_st n (drive + 1) in_use avail s3
          else add_drive_scan sys dev_st n (drive + 1) in_use avail s2
        | (_, s2) =>
          add_drive_scan sys dev_st n (drive + 1)
            (fun d => if d = drive then true else in_use d) avail s2
      | (Except.ok drive_st, s1) =>
        let in_use1 : Int → Bool := fun d => if d = drive then true else in_use d
        if !is_valid_device drive_st then
          add_drive_scan sys dev_st n (drive + 1) in_use1 avail s1
        else if dev_st.st_rdev == drive_st.st_rdev then (ScanEnd.done drive, s1)
        else add_drive_scan sys dev_st n (drive + 1) in_use1 avail s1

/-- The `while (avail != -1)` loop of `add_drive`; the first iteration always
runs since `avail` starts at 0. -/
def add_drive_loop {σ : Type} (sys : Sys σ) (device : String) (dev_st : stat_t)
    (first last : Int) : Nat → (Int → Bool) → σ → Option Int × σ
  | 0, _, s => (none, s)
  | fuel + 1, in_use, s =>
    match add_drive_scan sys dev_st (last - first).toNat first in_use (-1) s with
    | (ScanEnd.done drive, s1) => (some drive, s1)
    | (ScanEnd.finished in_use1 avail, s1) =>
      if avail != -1 then
        match sys.symlink device (Path.dev avail) s1 with
        | (Except.ok _, s2) => (some avail, s2)
        | (Except.error _, s2) =>
          add_drive_loop sys device dev_st first last fuel in_use1 s2
      else (some (-1), s1)

/-- Scan bounds of `add_drive`: `first = 0, last = 2` for removable drives,
`first = 2, last = 26` otherwise. -/
def add_drive_first (type : Nat) : Int := if type = DRIVE_REMOVABLE then 0 else 2

def add_drive_last (type : Nat) : Int := if type = DRIVE_REMOVABLE then 2 else 26

/-- Find or create a DOS drive for the corresponding device (`add_drive`). -/
def add_drive {σ : Type} (sys : Sys σ) (fuel : Nat) (device : String) (type : Nat)
    (s : σ) : Option Int × σ :=
  match sys.stat (Path.unix device) s with
  | (Except.error _, s1) => (some (-1), s1)
  | (Except.ok dev_st, s1) =>
    if !is_valid_device dev_st then (some (-1), s1)
    else
      add_drive_loop sys device dev_st (add_drive_first type) (add_drive_last type)
        fuel (fun _ => false) s1

/-! ## A concrete filesystem without interference -/

/-- A directory entry of `dosdevices`: a symbolic link or something else. -/
inductive Entry where
  | symlink (target : String)
  | node (st : stat_t)
  deriving DecidableEq, Repr

/-- The filesystem as device.c sees it: what `stat` gives for Unix-side paths,
the `x::` and `x:` entries of the `dosdevices` directory, and whether that
directory accepts changes.  Link targets are resolved on the Unix side. -/
structure FS where
  unix : String → Option stat_t
  devlink : Int → Option Entry
  mntlink : Int → Option Entry
  writable : Bool

def FS.entry (fs : FS) : Path → Option Entry
  | Path.unix p => (fs.unix p).map Entry.node
  | Path.dev d => fs.devlink d
  | Path.mnt d => fs.mntlink d

def FS.set (fs : FS) (p : Path) (e : Option Entry) : FS :=
  match p with
  | Path.unix _ => fs
  | Path.dev d => { fs with devlink := fun x => if x = d then e else fs.devlink x }
  | Path.mnt d => { fs with mntlink := fun x => if x = d then e else fs.mntlink x }

def FS.stat (fs : FS) (p : Path) : Except Errno stat_t :=
  match fs.entry p with
  | none => Except.error Errno.ENOENT
  | some (Entry.node st) => Except.ok st
  | some (Entry.symlink t) =>
    match fs.unix t with
    | none => Except.error Errno.ENOENT
    | some st => Except.ok st

def FS.lstat (fs : FS) (p : Path) : Except Errno stat_t :=
  match fs.entry p with
  | none => Except.error Errno.ENOENT
  | some (Entry.node st) => Except.ok st
  | some (Entry.symlink _) => Except.ok ⟨FileKind.reg, 0⟩

def FS.symlink (fs : FS) (target : String) (p : Path) : Except Errno Unit × FS :=
  match p with
  | Path.unix _ => (Except.error Errno.EACCES, fs)
  | _ =>
    if !fs.writable then (Except.error Errno.EACCES, fs)
    else
      match fs.entry p with
      | some _ => (Except.error Errno.EEXIST, fs)
      | none => (Except.ok (), fs.set p (some (Entry.symlink target)))

def FS.unlink (fs : FS) (p : Path) : Except Errno Unit × FS :=
  match p with
  | Path.unix _ => (Except.error Errno.EACCES, fs)
  | _ =>
    match fs.entry p with
    | none => (Except.error Errno.ENOENT, fs)
    | some e =>
      if !fs.writable then (Except.error Errno.EACCES, fs)
      else
        match e with
        | Entry.node ⟨FileKind.dir, _⟩ => (Except.error Errno.EISDIR, fs)
        | _ => (Except.ok (), fs.set p none)

def FS.readlink (fs : FS) (p : Path) : Except Errno String :=
  match fs.entry p with
  | none => Except.error Errno.ENOENT
  | some (Entry.symlink t) => Except.ok t
  | some (Entry.node _) => Except.error Errno.EINVAL

/-- The interference-free system: calls act on the filesystem alone. -/
def posix : Sys FS where
  stat := fun p fs => (fs.stat p, fs)
  lstat := fun p fs => (fs.lstat p, fs)
  symlink := fun t p fs => fs.symlink t p
  unlink := fun p fs => fs.unlink p
  readlink := fun p fs => (fs.readlink p, fs)

/-! ## Drives, devices and mount points -/

/-- The `sprintfW` templates of `create_disk_device`. -/
inductive NameFormat where
  | harddiskvolW
  | harddiskW
  | cdromW
  | floppyW
  deriving DecidableEq, Repr

/-- A device name: the result of `sprintfW( name.Buffer, format, i )`. -/
structure DeviceName where
  format : NameFormat
  unit : Nat
  deriving DecidableEq, Repr

structure STORAGE_DEVICE_NUMBER where
  DeviceType : Nat
  DeviceNumber : Nat
  PartitionNumber : Nat
  deriving DecidableEq, Repr

/-- The record `struct dos_drive`.  The `device` object is identified by the
`name` it is bound to; `dosdev` and `volume` are pointers to mount points
(`none` is NULL). -/
structure dos_drive where
  udi : Option String
  drive : Int
  type : Nat
  name : DeviceName
  devnum : STORAGE_DEVICE_NUMBER
  dosdev : Option Nat
  volume : Option Nat
  unix_mount : Option String
  deriving DecidableEq, Repr

/-- Modelled from the spec: `struct mount_point` of mountmgr.c, which is not
part of the sources at hand; one of the two derived mount-point artifacts of
a lettered drive, carrying the Unix mount path as correlation tag. -/
structure mount_point where
  handle : Nat
  is_volume : Bool
  device : DeviceName
  drive : Int
  id : Option String
  deriving DecidableEq, Repr

/-- The process state: the filesystem, the names bound in the device
namespace, `drives_list`, the live mount points with the next fresh pointer
and the pointers handed to `delete_mount_point` (latest first), the values of
the `Software\Wine\Drives` key and the broadcasts sent (latest first). -/
structure World (σ : Type) where
  fs : σ
  devices : List DeviceName
  drives_list : List dos_drive
  mount_points : List mount_point
  next_mount : Nat
  deleted_mounts : List Nat
  drives_key : Int → Option String
  notifications : List (Int × Nat)

/-- Modelled from the spec: `IoCreateDevice` of ntoskrnl, not part of the
sources at hand; a name already bound is refused with
STATUS_OBJECT_NAME_COLLISION, a free name is bound. -/
def IoCreateDevice {σ : Type} (name : DeviceName) (w : World σ) : Nat × World σ :=
  if name ∈ w.devices then (STATUS_OBJECT_NAME_COLLISION, w)
  else (STATUS_SUCCESS, { w with devices := name :: w.devices })

/-- Modelled from the spec: `IoDeleteDevice` of ntoskrnl; releases the device
object and its name. -/
def IoDeleteDevice {σ : Type} (name : DeviceName) (w : World σ) : World σ :=
  { w with devices := w.devices.erase name }

/-- Modelled from the spec: `add_dosdev_mount_point` and
`add_volume_mount_point` of mountmgr.c; the constructor succeeds and returns
a fresh mount point tagged with `id`. -/
def add_mount_point {σ : Type} (is_volume : Bool) (name : DeviceName) (drive : Int)
    (id : Option String) (w : World σ) : Option Nat × World σ :=
  (some w.next_mount,
    { w with
      mount_points := ⟨w.next_mount, is_volume, name, drive, id⟩ :: w.mount_points
      next_mount := w.next_mount + 1 })

/-- Modelled from the spec: `delete_mount_point` of mountmgr.c; destroys the
mount point behind the pointer.  Every pointer passed is recorded. -/
def delete_mount_point {σ : Type} (mount : Nat) (w : World σ) : World σ :=
  { w with
    mount_points := w.mount_points.filter (fun m => m.handle != mount)
    deleted_mounts := mount :: w.deleted_mounts }

/-- Modelled from the spec: `set_mount_point_id` of mountmgr.c; replaces the
correlation tag of a mount point. -/
def set_mount_point_id {σ : Type} (mount : Nat) (id : Option String) (w : World σ) :
    World σ :=
  { w with
    mount_points :=
      w.mount_points.map (fun m => if m.handle = mount then { m with id := id } else m) }

/-- `send_notify`: broadcast a change of a drive. -/
def send_notify {σ : Type} (drive : Int) (code : Nat) (w : World σ) : World σ :=
  { w with notifications := (drive, code) :: w.notifications }

/-- `RegSetValueExW` / `RegDeleteValueW` on the drives key. -/
def reg_set_value {σ : Type} (drive : Int) (v : Option String) (w : World σ) : World σ :=
  { w with drives_key := fun d => if d = drive then v else w.drives_key d }

/-! ## create_disk_device, delete_disk_device -/

/-- The name template and the first unit number chosen by the first `switch`
of `create_disk_device`. -/
def create_disk_device_format (udi : Option String) (type : Nat) : NameFormat × Nat :=
  if type = DRIVE_REMOVABLE then (NameFormat.floppyW, 0)
  else if type = DRIVE_CDROM then (NameFormat.cdromW, 0)
  else if udi.isSome then (NameFormat.harddiskW, 0)
  else (NameFormat.harddiskvolW, 1)

/-- The loop `for (i = first; i < 32; i++)` of `create_disk_device` with `n`
iterations left; returns the last status, the final `i` and the state. -/
def create_disk_device_probe {σ : Type} (format : NameFormat) :
    Nat → Nat → Nat → World σ → Nat × Nat × World σ
  | 0, i, status, w => (status, i, w)
  | n + 1, i, _, w =>
    match IoCreateDevice ⟨format, i⟩ w with
    | (status, w1) =>
      if status != STATUS_OBJECT_NAME_COLLISION then (status, i, w1)
      else create_disk_device_probe format n (i + 1) status w1

/-- The device number filled in by the second `switch` of
`create_disk_device`. -/
def create_disk_device_devnum (udi : Option String) (type i : Nat) :
    STORAGE_DEVICE_NUMBER :=
  if type = DRIVE_REMOVABLE then ⟨FILE_DEVICE_DISK, i, 4294967295⟩
  else if type = DRIVE_CDROM then ⟨FILE_DEVICE_CD_ROM, i, 4294967295⟩
  else if udi.isSome then ⟨FILE_DEVICE_DISK, i, 0⟩
  else ⟨FILE_DEVICE_DISK, 0, i⟩

/-- Create the disk device for a given drive (`create_disk_device`); returns
the status, the position of the new drive (`*drive_ret`) and the state. -/
def create_disk_device {σ : Type} (udi : Option String) (type : Nat) (w : World σ) :
    Nat × Nat × World σ :=
  let format := (create_disk_device_format udi type).1
  let first := (create_disk_device_format udi type).2
  match create_disk_device_probe format (32 - first) first 0 w with
  | (status, i, w1) =>
    if status = 0 then
      let drive : dos_drive :=
        { udi := udi
          drive := -1
          type := type
          name := ⟨format, i⟩
          devnum := create_disk_device_devnum udi type i
          dosdev := none
          volume := none
          unix_mount := none }
      (status, w1.drives_list.length,
        { w1 with drives_list := w1.drives_list ++ [drive] })
    else (status, 0, w1)

/-- Delete the disk device for a given drive (`delete_disk_device`). -/
def delete_disk_device {σ : Type} (i : Nat) (w : World σ) : World σ :=
  match w.drives_list[i]? with
  | none => w
  | some drive =>
    let w1 := { w with drives_list := w.drives_list.eraseIdx i }
    let w2 := match drive.dosdev with
      | some m => delete_mount_point m w1
      | none => w1
    let w3 := match drive.volume with
      | some m => delete_mount_point m w2
      | none => w2
    IoDeleteDevice drive.name w3

/-! ## set_drive_letter, set_unix_mount_point -/

/-- Set or change the drive letter for an existing drive
(`set_drive_letter`). -/
def set_drive_letter {σ : Type} (i : Nat) (letter : Int) (w : World σ) : World σ :=
  match w.drives_list[i]? with
  | none => w
  | some drive =>
    if drive.drive = letter then w
    else
      let w1 := match drive.dosdev with
        | some m => delete_mount_point m w
        | none => w
      let w2 := match drive.volume with
        | some m => delete_mount_point m w1
        | none => w1
      let drive1 := { drive with drive := letter }
      if letter = -1 then { w2 with drives_list := w2.drives_list.set i drive1 }
      else
        let id := drive.unix_mount
        match add_mount_point false drive.name letter id w2 with
        | (dosdev, w3) =>
          match add_mount_point true drive.name letter id w3 with
          | (volume, w4) =>
            { w4 with
              drives_list :=
                w4.drives_list.set i { drive1 with dosdev := dosdev, volume := volume } }

/-- Propagate a correlation tag to the two mount points of a drive, when
present. -/
def set_drive_mount_ids {σ : Type} (drive : dos_drive) (id : Option String)
    (w : World σ) : World σ :=
  let w1 := match drive.dosdev with
    | some m => set_mount_point_id m id w
    | none => w
  match drive.volume with
  | some m => set_mount_point_id m id w1
  | none => w1

/-- Record the Unix mount point of a drive (`set_unix_mount_point`); returns
`modified`.  The test `mount_point && mount_point[0]` selects the first
branch. -/
def set_unix_mount_point {σ : Type} (sys : Sys σ) (i : Nat) (mount_point : Option String)
    (w : World σ) : Bool × World σ :=
  match w.drives_list[i]? with
  | none => (false, w)
  | some drive =>
    let path := Path.mnt drive.drive
    match mount_point.filter (fun mp => mp != "") with
    | some mp =>
      let r : Bool × σ :=
        if drive.unix_mount != some mp then
          (true, (sys.symlink mp path (sys.unlink path w.fs).2).2)
        else (false, w.fs)
      let w1 := { w with
        fs := r.2
        drives_list := w.drives_list.set i { drive with unix_mount := some mp } }
      (r.1, set_drive_mount_ids drive (some mp) w1)
    | none =>
      match sys.unlink path w.fs with
      | (res, fs1) =>
        let w1 := { w with
          fs := fs1
          drives_list := w.drives_list.set i { drive with unix_mount := none } }
        (res.toBool, set_drive_mount_ids drive none w1)

/-! ## create_drive_devices -/

/-- The drive type named by a registry value: the first index `j` of
`drive_types` with a non-empty name equal to the value, case ignored. -/
def registry_drive_type (buffer : String) : Option Nat :=
  drive_types.findIdx? (fun t => t != "" && buffer.toLower == t)

/-- The body of the loop of `create_drive_devices` for letter `i`.  The
growing-buffer loop of `read_symlink` is represented by its result, the whole
link content. -/
def create_drive_devices_step {σ : Type} (sys : Sys σ) (i : Nat) (w : World σ) :
    World σ :=
  match sys.readlink (Path.mnt i) w.fs with
  | (Except.error _, fs1) => { w with fs := fs1 }
  | (Except.ok link, fs1) =>
    let w1 := { w with fs := fs1 }
    let drive_type0 := if i < 2 then DRIVE_REMOVABLE else DRIVE_FIXED
    let drive_type :=
      match w1.drives_key i with
      | some buffer => (registry_drive_type buffer).getD drive_type0
      | none => drive_type0
    match create_disk_device none drive_type w1 with
    | (status, drive, w2) =>
      if status = 0 then
        match w2.drives_list[drive]? with
        | none => w2
        | some d =>
          set_drive_letter drive i
            { w2 with drives_list := w2.drives_list.set drive { d with unix_mount := some link } }
      else w2

/-- The loop `for (i = 0; i < MAX_DOS_DRIVES; i++)` of `create_drive_devices`,
with `n` letters left starting at `i`. -/
def create_drive_devices_from {σ : Type} (sys : Sys σ) : Nat → Nat → World σ → World σ
  | 0, _, w => w
  | n + 1, i, w => create_drive_devices_from sys n (i + 1) (create_drive_devices_step sys i w)

/-- Create devices for mapped drives (`create_drive_devices`). -/
def create_drive_devices {σ : Type} (sys : Sys σ) (w : World σ) : World σ :=
  create_drive_devices_from sys MAX_DOS_DRIVES 0 w

/-- Driver entry point for the harddisk driver (`harddisk_driver_entry`): binds
the static `Harddisk0` device, which is not put on `drives_list`, and scans the
mapped drives.  `IoCreateSymbolicLink` is taken to succeed. -/
def harddisk_driver_entry {σ : Type} (sys : Sys σ) (w : World σ) : Nat × World σ :=
  match IoCreateDevice ⟨NameFormat.harddiskW, 0⟩ w with
  | (status, w1) =>
    if status != 0 then (status, w1)
    else (status, create_drive_devices sys w1)

/-! ## add_dos_device, remove_dos_device -/

/-- The `LIST_FOR_EACH_ENTRY_SAFE` loop of `add_dos_device`, with `n` entries
left and the cursor at position `i`.  Returns the position of the drive at
`goto found`, or `none` when the loop runs to the end. -/
def add_dos_device_find {σ : Type} (udi : String) (type : Nat) (letter : Int) :
    Nat → Nat → World σ → Option Nat × World σ
  | 0, _, w => (none, w)
  | n + 1, i, w =>
    match w.drives_list[i]? with
    | none => (none, w)
    | some drive =>
      if drive.udi = some udi then
        if type = drive.type then (some i, w)
        else add_dos_device_find udi type letter n i (delete_disk_device i w)
      else if drive.drive = letter then
        add_dos_device_find udi type letter n i (delete_disk_device i w)
      else add_dos_device_find udi type letter n (i + 1) w

/-- The part of `add_dos_device` after the label `found`. -/
def add_dos_device_found {σ : Type} (sys : Sys σ) (drive : Nat) (letter : Int)
    (mount_point : Option String) (type : Nat) (w : World σ) : World σ :=
  let w1 := set_drive_letter drive letter w
  let w2 := (set_unix_mount_point sys drive mount_point w1).2
  match w2.drives_list[drive]? with
  | none => w2
  | some d =>
    if d.drive != -1 then
      let type_name := drive_types.getD type ""
      let w3 := reg_set_value d.drive (if type_name != "" then some type_name else none) w2
      send_notify d.drive DBT_DEVICEARRIVAL w3
    else w2

/-- Attach a device (`add_dos_device`).  The result is `none` when
`add_drive` does not return within the fuel. -/
def add_dos_device {σ : Type} (sys : Sys σ) (fuel : Nat) (udi device : String)
    (mount_point : Option String) (type : Nat) (w : World σ) : Option Bool × World σ :=
  match add_drive sys fuel device type w.fs with
  | (none, fs1) => (none, { w with fs := fs1 })
  | (some letter, fs1) =>
    let w1 := { w with fs := fs1 }
    if letter = -1 then (some false, w1)
    else
      match add_dos_device_find udi type letter w1.drives_list.length 0 w1 with
      | (some drive, w2) =>
        (some true, add_dos_device_found sys drive letter mount_point type w2)
      | (none, w2) =>
        match create_disk_device (some udi) type w2 with
        | (status, drive, w3) =>
          if status != 0 then (some false, w3)
          else (some true, add_dos_device_found sys drive letter mount_point type w3)

/-- The search of `remove_dos_device`: the position of the first drive whose
`udi` is set and equal to the given one, counting from `i`. -/
def remove_dos_device_find (udi : String) : List dos_drive → Nat → Option Nat
  | [], _ => none
  | drive :: rest, i =>
    if drive.udi = some udi then some i else remove_dos_device_find udi rest (i + 1)

/-- Detach a device (`remove_dos_device`). -/
def remove_dos_device {σ : Type} (sys : Sys σ) (udi : String) (w : World σ) :
    Bool × World σ :=
  match remove_dos_device_find udi w.drives_list 0 with
  | none => (false, w)
  | some i =>
    match w.drives_list[i]? with
    | none => (false, w)
    | some drive =>
      if drive.drive != -1 then
        match set_unix_mount_point sys i none w with
        | (modified, w1) =>
          let w2 := reg_set_value drive.drive none w1
          let w3 := if modified then send_notify drive.drive DBT_DEVICEREMOVECOMPLETE w2 else w2
          (true, delete_disk_device i w3)
      else (true, delete_disk_device i w)

/-! ## harddisk_ioctl -/

structure DISK_GEOMETRY where
  Cylinders : Nat
  MediaType : Nat
  TracksPerCylinder : Nat
  SectorsPerTrack : Nat
  BytesPerSector : Nat
  deriving DecidableEq, Repr

/-- The record handed to `memcpy` as source by `harddisk_ioctl`. -/
inductive IoctlData where
  | geometry (info : DISK_GEOMETRY)
  | devnum (n : STORAGE_DEVICE_NUMBER)
  deriving DecidableEq, Repr

/-- What `harddisk_ioctl` leaves in the IRP: the status, and when a reply is
produced the record `data` of which the first `Information` bytes are copied
to the output buffer. -/
structure IoctlReply where
  Status : Nat
  Information : Option Nat
  data : Option IoctlData
  deriving DecidableEq, Repr

/-- The size in bytes of DISK_GEOMETRY (a 64-bit and four 32-bit fields). -/
def sizeof_DISK_GEOMETRY : Nat := 24

/-- The size in bytes of STORAGE_DEVICE_NUMBER (three 32-bit fields). -/
def sizeof_STORAGE_DEVICE_NUMBER : Nat := 12

/-- Handler for ioctls on the harddisk device (`harddisk_ioctl`). -/
def harddisk_ioctl (drive : dos_drive) (IoControlCode OutputBufferLength : Nat) :
    IoctlReply :=
  if IoControlCode = IOCTL_DISK_GET_DRIVE_GEOMETRY then
    let len := min sizeof_DISK_GEOMETRY OutputBufferLength
    let info : DISK_GEOMETRY :=
      { Cylinders := 10000
        MediaType :=
          if drive.devnum.DeviceType = FILE_DEVICE_DISK then FixedMedia else RemovableMedia
        TracksPerCylinder := 255
        SectorsPerTrack := 63
        BytesPerSector := 512 }
    ⟨STATUS_SUCCESS, some len, some (IoctlData.geometry info)⟩
  else if IoControlCode = IOCTL_STORAGE_GET_DEVICE_NUMBER then
    let len := min sizeof_STORAGE_DEVICE_NUMBER OutputBufferLength
    ⟨STATUS_SUCCESS, some len, some (IoctlData.devnum drive.devnum)⟩
  else if IoControlCode = IOCTL_CDROM_READ_TOC then
    ⟨STATUS_INVALID_DEVICE_REQUEST, none, none⟩
  else ⟨STATUS_NOT_SUPPORTED, none, none⟩

/-! ## Vocabulary of the properties -/

/-- No two drives of the list hold the same letter `>= 0`. -/
def letters_unique (drives : List dos_drive) : Prop :=
  ((drives.map (fun d => d.drive)).filter (fun l => decide (0 ≤ l))).Nodup

instance (drives : List dos_drive) : Decidable (letters_unique drives) := by
  unfold letters_unique; infer_instance

/-- The first drive of the list registered under the identifier. -/
def drive_of_udi (udi : String) (drives : List dos_drive) : Option dos_drive :=
  drives.find? (fun d => d.udi = some udi)

/-- System calls as recorded by `Sys.traced`. -/
inductive Call where
  | stat (p : Path)
  | lstat (p : Path)
  | symlink (target : String) (p : Path)
  | unlink (p : Path)
  | readlink (p : Path)
  deriving DecidableEq, Repr

/-- The same system, recording every call made (latest first). -/
def Sys.traced {σ : Type} (sys : Sys σ) : Sys (σ × List Call) where
  stat := fun p s => ((sys.stat p s.1).1, ((sys.stat p s.1).2, Call.stat p :: s.2))
  lstat := fun p s => ((sys.lstat p s.1).1, ((sys.lstat p s.1).2, Call.lstat p :: s.2))
  symlink := fun t p s =>
    ((sys.symlink t p s.1).1, ((sys.symlink t p s.1).2, Call.symlink t p :: s.2))
  unlink := fun p s => ((sys.unlink p s.1).1, ((sys.unlink p s.1).2, Call.unlink p :: s.2))
  readlink := fun p s =>
    ((sys.readlink p s.1).1, ((sys.readlink p s.1).2, Call.readlink p :: s.2))

/-- States reachable from an empty registry by the driver entry (bootstrap),
attach and detach calls that return, and changes made to the filesystem by
others in between. -/
inductive Reachable {σ : Type} (sys : Sys σ) : World σ → Prop where
  | empty (w : World σ) : w.drives_list = [] → Reachable sys w
  | bootstrap (w : World σ) : w.drives_list = [] →
      Reachable sys (harddisk_driver_entry sys w).2
  | attach (w : World σ) (fuel : Nat) (udi device : String) (mount_point : Option String)
      (type : Nat) (b : Bool) (w1 : World σ) : Reachable sys w →
      add_dos_device sys fuel udi device mount_point type w = (some b, w1) →
      Reachable sys w1
  | detach (w : World σ) (udi : String) : Reachable sys w →
      Reachable sys (remove_dos_device sys udi w).2
  | environment (w : World σ) (fs1 : σ) : Reachable sys w →
      Reachable sys { w with fs := fs1 }

/-- A filesystem with three block devices and an empty `dosdevices`
directory. -/
def example_fs : FS where
  unix := fun p =>
    if p = "/dev/sdb1" then some ⟨FileKind.blk, 2065⟩
    else if p = "/dev/sdc1" then some ⟨FileKind.blk, 2081⟩
    else if p = "/dev/fd0" then some ⟨FileKind.blk, 512⟩
    else none
  devlink := fun _ => none
  mntlink := fun _ => none
  writable := true

/-- The same filesystem with a `dosdevices` directory that refuses changes. -/
def example_fs_readonly : FS := { example_fs with writable := false }

/-- A state with no drive, no device and no mount point. -/
def empty_world {σ : Type} (fs : σ) : World σ where
  fs := fs
  devices := []
  drives_list := []
  mount_points := []
  next_mount := 0
  deleted_mounts := []
  drives_key := fun _ => none
  notifications := []

/-- The state after attaching "x" on /dev/sdb1 to the empty world: "x" holds
letter 2. -/
def one_drive_world : World FS :=
  (add_dos_device posix 1 "x" "/dev/sdb1" (some "/mnt/a") DRIVE_FIXED
    (empty_world example_fs)).2

/-- The state after attaching "y" on /dev/sdc1 as well: "x" holds letter 2 and
"y" letter 3. -/
def two_drives_world : World FS :=
  (add_dos_device posix 1 "y" "/dev/sdc1" (some "/mnt/b") DRIVE_FIXED one_drive_world).2

/-- The state after detaching "x" again from `one_drive_world`. -/
def detached_world : World FS := (remove_dos_device posix "x" one_drive_world).2

/-- Whether a pass of the scan that ran to the end has marked letter `d` as
used. -/
def ScanEnd.marks (e : ScanEnd) (d : Int) : Bool :=
  match e with
  | ScanEnd.finished in_use _ => in_use d
  | ScanEnd.done _ => false

/-- A state without drives in which the names HarddiskVolume1 ..
HarddiskVolume31 are bound. -/
def volumes_bound_world : World FS :=
  { empty_world example_fs with
    devices := (List.range 31).map (fun k => ⟨NameFormat.harddiskvolW, k + 1⟩) }

/-- A freshly created fixed drive "x", then given letter 2. -/
def lettered_world : World FS :=
  set_drive_letter 0 2 (create_disk_device (some "x") DRIVE_FIXED (empty_world example_fs)).2.2

/-- What a pass of the scan guarantees, relative to its start: the `symlink`
calls on record are those recorded before, and the letter it ends with lies
in the part of the range it visited (or `avail` is as it was). -/
def ScanOk {σ : Type} (log : List Call) (drive : Int) (n : Nat) (avail : Int)
    (out : ScanEnd × (σ × List Call)) : Prop :=
  (∀ t p, Call.symlink t p ∈ out.2.2 → Call.symlink t p ∈ log) ∧
  (match out.1 with
   | ScanEnd.done d => drive ≤ d ∧ d < drive + n
   | ScanEnd.finished _ av => av = avail ∨ (drive ≤ av ∧ av < drive + n))

/-- The device artifact of letter `d` resolves to a valid device with the
device number of `dev_st`: the test that leads to `goto done` in the scan. -/
def resolves_to (fs : FS) (dev_st : stat_t) (d : Int) : Bool :=
  match fs.stat (Path.dev d) with
  | Except.ok st => is_valid_device st && dev_st.st_rdev == st.st_rdev
  | Except.error _ => false

/-- Neither the device artifact nor the mount artifact of letter `d`
exists. -/
def no_artifact (fs : FS) (d : Int) : Bool :=
  (fs.devlink d).isNone && (fs.mntlink d).isNone

/-- Two filesystems that differ at most in the mount artifacts (`x:`). -/
def same_dev (fs fs1 : FS) : Prop :=
  fs1.unix = fs.unix ∧ fs1.devlink = fs.devlink ∧ fs1.writable = fs.writable

/-- No two drives of the list carry the same identifier. -/
def udi_unique (drives : List dos_drive) : Prop :=
  (drives.filterMap (fun d => d.udi)).Nodup

/-- What a pass of the scan on the interference-free filesystem tells about
the filesystem: a pass that stops at `d` found the lowest letter at or after
`drive` that resolves to the device; a pass that runs to the end found none,
marked only letters that do not resolve to it, and left in `avail` either the
old value or a visited letter without device artifact. -/
def ScanInv (fs : FS) (dev_st : stat_t) (drive : Int) (n : Nat) (avail : Int)
    (out : ScanEnd × FS) : Prop :=
  out.2 = fs ∧
  (match out.1 with
   | ScanEnd.done d =>
     drive ≤ d ∧ d < drive + n ∧ resolves_to fs dev_st d = true ∧
       ∀ d', drive ≤ d' → d' < d → resolves_to fs dev_st d' = false
   | ScanEnd.finished iu av =>
     (∀ d, iu d = true → resolves_to fs dev_st d = false) ∧
     (∀ d', drive ≤ d' → d' < drive + n → resolves_to fs dev_st d' = false) ∧
     (av = avail ∨ (drive ≤ av ∧ av < drive + n ∧ (fs.devlink av).isNone = true)))

/-- The same state over the recording system, with `log` as the calls
recorded so far. -/
def World.traced {σ : Type} (w : World σ) (log : List Call) : World (σ × List Call) where
  fs := (w.fs, log)
  devices := w.devices
  drives_list := w.drives_list
  mount_points := w.mount_points
  next_mount := w.next_mount
  deleted_mounts := w.deleted_mounts
  drives_key := w.drives_key
  notifications := w.notifications

/-- A sequence of `set_drive_letter` calls on the drive at position `i`. -/
def set_drive_letters {σ : Type} (i : Nat) : List Int → World σ → World σ
  | [], w => w
  | letter :: rest, w => set_drive_letters i rest (set_drive_letter i letter w)

/-- C1: failing input for letter uniqueness.  From the empty registry, "x" is
attached on /dev/sdb1 (letter 2) and "y" on /dev/sdc1 (letter 3); letters are
unique.  Attaching "x" again, now on /dev/sdc1, allocates letter 3, reuses
the drive of "x" at the head of the list and stops the traversal there, so
the drive of "y" behind it keeps letter 3: two drives hold letter 3. -/
theorem attach_keeps_later_letter_holder :
    letters_unique two_drives_world.drives_list ∧
    two_drives_world.drives_list.map (fun d => (d.udi, d.drive))
      = [(some "x", 2), (some "y", 3)] ∧
    (add_dos_device posix 1 "x" "/dev/sdc1" (some "/mnt/b") DRIVE_FIXED
      two_drives_world).1 = some true ∧
    (add_dos_device posix 1 "x" "/dev/sdc1" (some "/mnt/b") DRIVE_FIXED
      two_drives_world).2.drives_list.map (fun d => (d.udi, d.drive))
      = [(some "x", 3), (some "y", 3)] ∧
    ¬ letters_unique (add_dos_device posix 1 "x" "/dev/sdc1" (some "/mnt/b") DRIVE_FIXED
      two_drives_world).2.drives_list := by
  refine ⟨by decide, by decide, by decide, by decide, by decide⟩

/-! ## C2: range restriction of add_drive -/

theorem ScanOk_step {σ : Type} {log log1 : List Call} {drive : Int} {n : Nat}
    {avail avail1 : Int} {out : ScanEnd × (σ × List Call)}
    (h : ScanOk log1 (drive + 1) n avail1 out)
    (hlog : ∀ t p, Call.symlink t p ∈ log1 → Call.symlink t p ∈ log)
    (hav : avail1 = avail ∨ avail1 = drive) :
    ScanOk log drive (n + 1) avail out := by
  obtain ⟨h1, h2⟩ := h
  refine ⟨fun t p hp => hlog t p (h1 t p hp), ?_⟩
  revert h2
  cases out.1 with
  | done d => simp only; intro h2; omega
  | finished iu av =>
    simp only
    intro h2
    rcases h2 with h2 | h2
    · rcases hav with hav | hav
      · left; omega
      · right; omega
    · right; push_cast; omega

theorem traced_stat_log {σ : Type} {sys : Sys σ} {p : Path} {s s1 : σ × List Call}
    {r : Except Errno stat_t} (h : sys.traced.stat p s = (r, s1)) :
    s1.2 = Call.stat p :: s.2 := by
  have := congrArg (fun x => x.2.2) h
  simpa [Sys.traced] using this.symm

theorem traced_lstat_log {σ : Type} {sys : Sys σ} {p : Path} {s s1 : σ × List Call}
    {r : Except Errno stat_t} (h : sys.traced.lstat p s = (r, s1)) :
    s1.2 = Call.lstat p :: s.2 := by
  have := congrArg (fun x => x.2.2) h
  simpa [Sys.traced] using this.symm

theorem add_drive_scan_traced {σ : Type} (sys : Sys σ) (dev_st : stat_t) (n : Nat) :
    ∀ (drive : Int) (in_use : Int → Bool) (avail : Int) (s : σ × List Call),
      ScanOk s.2 drive n avail (add_drive_scan sys.traced dev_st n drive in_use avail s) := by
  induction n with
  | zero =>
    intro drive in_use avail s
    exact ⟨fun t p h => h, Or.inl rfl⟩
  | succ n ih =>
    intro drive in_use avail s
    simp only [add_drive_scan]
    split
    · exact ScanOk_step (ih _ _ _ _) (fun t p h => h) (Or.inl rfl)
    · split
      · rename_i e s1 hstat
        have l1 := traced_stat_log hstat
        split
        · rename_i s2 hl
          have l2 := traced_lstat_log hl
          split
          · split
            · rename_i s3 hm
              have l3 := traced_lstat_log hm
              refine ScanOk_step (ih _ _ _ _) ?_ (Or.inr rfl)
              intro t p h
              simpa [l1, l2, l3] using h
            · rename_i s3 _ hm
              have l3 := traced_lstat_log hm
              refine ScanOk_step (ih _ _ _ _) ?_ (Or.inl rfl)
              intro t p h
              simpa [l1, l2, l3] using h
          · refine ScanOk_step (ih _ _ _ _) ?_ (Or.inl rfl)
            intro t p h
            simpa [l1, l2] using h
        · rename_i s2 _ hl
          have l2 := traced_lstat_log hl
          refine ScanOk_step (ih _ _ _ _) ?_ (Or.inl rfl)
          intro t p h
          simpa [l1, l2] using h
      · rename_i st s1 hstat
        have l1 := traced_stat_log hstat
        split
        · refine ScanOk_step (ih _ _ _ _) ?_ (Or.inl rfl)
          intro t p h
          simpa [l1] using h
        · split
          · refine ⟨?_, ?_⟩
            · intro t p h
              simpa [l1] using h
            · simp only
              constructor <;> push_cast <;> omega
          · refine ScanOk_step (ih _ _ _ _) ?_ (Or.inl rfl)
            intro t p h
            simpa [l1] using h
theorem add_drive_scan_traced_sim {σ : Type} (sys : Sys σ) (dev_st : stat_t) (n : Nat) :
    ∀ (drive : Int) (in_use : Int → Bool) (avail : Int) (s : σ) (log : List Call),
      (add_drive_scan sys.traced dev_st n drive in_use avail (s, log)).1
        = (add_drive_scan sys dev_st n drive in_use avail s).1 ∧
      (add_drive_scan sys.traced dev_st n drive in_use avail (s, log)).2.1
        = (add_drive_scan sys dev_st n drive in_use avail s).2 := by
  induction n with
  | zero => intro drive in_use avail s log; exact ⟨rfl, rfl⟩
  | succ n ih =>
    intro drive in_use avail s log
    simp only [add_drive_scan]
    by_cases hin : in_use drive = true
    · simp only [hin, if_true]; exact ih _ _ _ _ _
    · simp only [hin]
      have e1 : sys.traced.stat (Path.dev drive) (s, log)
          = ((sys.stat (Path.dev drive) s).1, ((sys.stat (Path.dev drive) s).2,
              Call.stat (Path.dev drive) :: log)) := rfl
      rw [e1]
      rcases sys.stat (Path.dev drive) s with ⟨r, s1⟩
      cases r with
      | error e =>
        simp only
        have e2 : sys.traced.lstat (Path.dev drive) (s1, Call.stat (Path.dev drive) :: log)
            = ((sys.lstat (Path.dev drive) s1).1, ((sys.lstat (Path.dev drive) s1).2,
                Call.lstat (Path.dev drive) :: Call.stat (Path.dev drive) :: log)) := rfl
        rw [e2]
        rcases sys.lstat (Path.dev drive) s1 with ⟨r2, s2⟩
        have e3 : ∀ l, sys.traced.lstat (Path.mnt drive) (s2, l)
            = ((sys.lstat (Path.mnt drive) s2).1, ((sys.lstat (Path.mnt drive) s2).2,
                Call.lstat (Path.mnt drive) :: l)) := fun _ => rfl
        cases r2 with
        | ok st => exact ih _ _ _ _ _
        | error e' =>
          cases e' <;> try exact ih _ _ _ _ _
          simp only [e3]
          by_cases hav : (avail == -1) = true
          · simp only [hav, if_true]
            rcases sys.lstat (Path.mnt drive) s2 with ⟨r3, s3⟩
            cases r3 with
            | ok st => exact ih _ _ _ _ _
            | error e'' => cases e'' <;> exact ih _ _ _ _ _
          · simp only [hav]; exact ih _ _ _ _ _
      | ok st =>
        simp only
        by_cases hv : (!is_valid_device st) = true
        · simp only [hv, if_true]; exact ih _ _ _ _ _
        · simp only [hv]
          by_cases hr : (dev_st.st_rdev == st.st_rdev) = true
          · simp only [hr, if_true]; exact ⟨rfl, rfl⟩
          · simp only [hr]; exact ih _ _ _ _ _
theorem add_drive_loop_traced_sim {σ : Type} (sys : Sys σ) (device : String)
    (dev_st : stat_t) (first last : Int) (fuel : Nat) :
    ∀ (in_use : Int → Bool) (s : σ) (log : List Call),
      (add_drive_loop sys.traced device dev_st first last fuel in_use (s, log)).1
        = (add_drive_loop sys device dev_st first last fuel in_use s).1 ∧
      (add_drive_loop sys.traced device dev_st first last fuel in_use (s, log)).2.1
        = (add_drive_loop sys device dev_st first last fuel in_use s).2 := by
  induction fuel with
  | zero => intro in_use s log; exact ⟨rfl, rfl⟩
  | succ fuel ih =>
    intro in_use s log
    simp only [add_drive_loop]
    obtain ⟨h1, h2⟩ := add_drive_scan_traced_sim sys dev_st (last - first).toNat first
      in_use (-1) s log
    revert h1 h2
    rcases add_drive_scan sys.traced dev_st (last - first).toNat first in_use (-1) (s, log)
      with ⟨r, s1, log1⟩
    rcases add_drive_scan sys dev_st (last - first).toNat first in_use (-1) s with ⟨r', s1'⟩
    intro h1 h2
    simp only at h1 h2
    subst h1 h2
    cases r with
    | done d => exact ⟨rfl, rfl⟩
    | finished iu av =>
      simp only
      by_cases hav : (av != -1) = true
      · simp only [hav, if_true]
        have e : sys.traced.symlink device (Path.dev av) (s1, log1)
            = ((sys.symlink device (Path.dev av) s1).1, ((sys.symlink device (Path.dev av) s1).2,
                Call.symlink device (Path.dev av) :: log1)) := rfl
        rw [e]
        rcases sys.symlink device (Path.dev av) s1 with ⟨r2, s2⟩
        cases r2 with
        | ok u => exact ⟨rfl, rfl⟩
        | error e' => exact ih _ _ _
      · simp only [hav]; exact ⟨rfl, rfl⟩

/-- The letters `add_drive_loop` can return and the `symlink` calls it makes,
for any system and any amount of fuel. -/
theorem add_drive_loop_traced {σ : Type} (sys : Sys σ) (device : String)
    (dev_st : stat_t) (first last : Int) (hfl : first ≤ last) (fuel : Nat) :
    ∀ (in_use : Int → Bool) (s : σ × List Call),
      (∀ r, (add_drive_loop sys.traced device dev_st first last fuel in_use s).1 = some r →
        r = -1 ∨ (first ≤ r ∧ r < last)) ∧
      (∀ t p, Call.symlink t p ∈
          (add_drive_loop sys.traced device dev_st first last fuel in_use s).2.2 →
        Call.symlink t p ∈ s.2 ∨
          (t = device ∧ ∃ d, p = Path.dev d ∧ first ≤ d ∧ d < last)) := by
  induction fuel with
  | zero =>
    intro in_use s
    refine ⟨?_, ?_⟩
    · intro r h; simp [add_drive_loop] at h
    · intro t p h; exact Or.inl h
  | succ fuel ih =>
    intro in_use s
    simp only [add_drive_loop]
    have hscan := add_drive_scan_traced sys dev_st (last - first).toNat first in_use (-1) s
    revert hscan
    rcases add_drive_scan sys.traced dev_st (last - first).toNat first in_use (-1) s
      with ⟨r, s1⟩
    intro hscan
    obtain ⟨hlog, hres⟩ := hscan
    have hn : first + ((last - first).toNat : Int) = last := by
      rw [Int.toNat_of_nonneg (by omega)]; omega
    cases r with
    | done d =>
      simp only at hres ⊢
      refine ⟨?_, fun t p h => Or.inl (hlog t p h)⟩
      intro r hr
      have : d = r := by simpa using hr
      subst this
      right; omega
    | finished iu av =>
      simp only at hres ⊢
      by_cases hav : (av != -1) = true
      · simp only [hav, if_true]
        have hav' : av ≠ -1 := by simpa using hav
        have hrange : first ≤ av ∧ av < last := by
          rcases hres with h | h
          · exact absurd h hav'
          · omega
        have e : sys.traced.symlink device (Path.dev av) s1
            = ((sys.symlink device (Path.dev av) s1.1).1,
                ((sys.symlink device (Path.dev av) s1.1).2,
                  Call.symlink device (Path.dev av) :: s1.2)) := rfl
        rw [e]
        have hnew : ∀ t p, Call.symlink t p ∈ Call.symlink device (Path.dev av) :: s1.2 →
            Call.symlink t p ∈ s.2 ∨
              (t = device ∧ ∃ d, p = Path.dev d ∧ first ≤ d ∧ d < last) := by
          intro t p h
          rcases List.mem_cons.mp h with h | h
          · right
            injection h with ht hp
            exact ⟨ht, av, hp, hrange⟩
          · exact Or.inl (hlog t p h)
        rcases sys.symlink device (Path.dev av) s1.1 with ⟨r2, s2⟩
        cases r2 with
        | ok u =>
          simp only
          refine ⟨?_, hnew⟩
          intro r hr
          have : av = r := by simpa using hr
          subst this
          exact Or.inr hrange
        | error e' =>
          simp only
          obtain ⟨ih1, ih2⟩ := ih iu (s2, Call.symlink device (Path.dev av) :: s1.2)
          refine ⟨ih1, ?_⟩
          intro t p h
          rcases ih2 t p h with h | h
          · exact hnew t p h
          · exact Or.inr h
      · simp only [hav]
        refine ⟨?_, fun t p h => Or.inl (hlog t p h)⟩
        intro r hr
        left
        simpa using hr.symm

/-- C2: for every system (every filesystem state and every outcome of every
call, the claim attempts included), every device path, type and amount of
fuel: if `add_drive` returns, the result is -1, 0 or 1 for type removable and
-1 or a letter in 2..25 for every other type; and every `symlink` call it
makes creates the device artifact of a letter of that same range, pointing
to the device.  The recorded run is the run of the system itself. -/
theorem add_drive_range_restriction {σ : Type} (sys : Sys σ) (fuel : Nat)
    (device : String) (type : Nat) (s : σ) :
    (add_drive sys.traced fuel device type (s, [])).1 = (add_drive sys fuel device type s).1 ∧
    (add_drive sys.traced fuel device type (s, [])).2.1 = (add_drive sys fuel device type s).2 ∧
    (∀ r, (add_drive sys fuel device type s).1 = some r →
      if type = DRIVE_REMOVABLE then r = -1 ∨ r = 0 ∨ r = 1
      else r = -1 ∨ (2 ≤ r ∧ r ≤ 25)) ∧
    (∀ t p, Call.symlink t p ∈ (add_drive sys.traced fuel device type (s, [])).2.2 →
      t = device ∧ ∃ d, p = Path.dev d ∧
        if type = DRIVE_REMOVABLE then d = 0 ∨ d = 1 else 2 ≤ d ∧ d ≤ 25) := by
  have hsim : (add_drive sys.traced fuel device type (s, [])).1
        = (add_drive sys fuel device type s).1 ∧
      (add_drive sys.traced fuel device type (s, [])).2.1
        = (add_drive sys fuel device type s).2 := by
    simp only [add_drive]
    have e : sys.traced.stat (Path.unix device) (s, [])
        = ((sys.stat (Path.unix device) s).1, ((sys.stat (Path.unix device) s).2,
            [Call.stat (Path.unix device)])) := rfl
    rw [e]
    rcases sys.stat (Path.unix device) s with ⟨r, s1⟩
    cases r with
    | error e' => exact ⟨rfl, rfl⟩
    | ok st =>
      simp only
      by_cases hv : (!is_valid_device st) = true
      · simp only [hv, if_true]; trivial
      · simp only [hv]
        exact add_drive_loop_traced_sim sys device st _ _ fuel _ _ _
  have hfl : add_drive_first type ≤ add_drive_last type := by
    unfold add_drive_first add_drive_last; split_ifs <;> omega
  have key : (∀ r, (add_drive sys.traced fuel device type (s, [])).1 = some r →
        r = -1 ∨ (add_drive_first type ≤ r ∧ r < add_drive_last type)) ∧
      (∀ t p, Call.symlink t p ∈ (add_drive sys.traced fuel device type (s, [])).2.2 →
        t = device ∧ ∃ d, p = Path.dev d ∧ add_drive_first type ≤ d ∧ d < add_drive_last type) := by
    simp only [add_drive]
    have e : sys.traced.stat (Path.unix device) (s, [])
        = ((sys.stat (Path.unix device) s).1, ((sys.stat (Path.unix device) s).2,
            [Call.stat (Path.unix device)])) := rfl
    rw [e]
    rcases sys.stat (Path.unix device) s with ⟨r, s1⟩
    cases r with
    | error e' =>
      simp only
      refine ⟨fun r hr => Or.inl (by simpa using hr.symm), ?_⟩
      intro t p h; simp at h
    | ok st =>
      simp only
      by_cases hv : (!is_valid_device st) = true
      · simp only [hv, if_true]
        refine ⟨fun r hr => Or.inl (by simpa using hr.symm), ?_⟩
        intro t p h; simp at h
      · simp only [hv]
        obtain ⟨h1, h2⟩ := add_drive_loop_traced sys device st _ _ hfl fuel (fun _ => false)
          (s1, [Call.stat (Path.unix device)])
        refine ⟨h1, ?_⟩
        intro t p h
        rcases h2 t p h with h | h
        · simp at h
        · exact h
  refine ⟨hsim.1, hsim.2, ?_, ?_⟩
  · intro r hr
    rw [← hsim.1] at hr
    have := key.1 r hr
    unfold add_drive_first add_drive_last at this
    split_ifs with ht <;> simp only [ht, if_true, if_false] at this <;> omega
  · intro t p h
    obtain ⟨ht, d, hp, hd⟩ := key.2 t p h
    refine ⟨ht, d, hp, ?_⟩
    unfold add_drive_first add_drive_last at hd
    split_ifs with ht <;> simp only [ht, if_true, if_false] at hd <;> omega

/-! ## The scan on the interference-free filesystem -/

theorem add_drive_scan_posix_succ (fs : FS) (dev_st : stat_t) (n : Nat) (drive : Int)
    (in_use : Int → Bool) (avail : Int) :
    add_drive_scan posix dev_st (n + 1) drive in_use avail fs =
      if in_use drive then add_drive_scan posix dev_st n (drive + 1) in_use avail fs
      else if (fs.devlink drive).isNone then
        if avail == -1 && (fs.mntlink drive).isNone then
          add_drive_scan posix dev_st n (drive + 1) in_use drive fs
        else add_drive_scan posix dev_st n (drive + 1) in_use avail fs
      else if resolves_to fs dev_st drive then (ScanEnd.done drive, fs)
      else add_drive_scan posix dev_st n (drive + 1)
        (fun d => if d = drive then true else in_use d) avail fs := by
  by_cases hin : in_use drive = true
  · simp [add_drive_scan, hin]
  · by_cases hav : (avail == -1) = true
    · cases hd : fs.devlink drive with
      | none =>
        cases hm : fs.mntlink drive with
        | none => simp [add_drive_scan, hin, posix, FS.stat, FS.lstat, FS.entry, hd, hm, hav]
        | some e =>
          cases e <;>
            simp [add_drive_scan, hin, posix, FS.stat, FS.lstat, FS.entry, hd, hm, hav]
      | some e =>
        cases e with
        | node st =>
          by_cases hv : is_valid_device st = true <;>
          by_cases hr : (dev_st.st_rdev == st.st_rdev) = true <;>
            simp [add_drive_scan, hin, posix, FS.stat, FS.lstat, FS.entry, hd, resolves_to,
              hv, hr]
        | symlink t =>
          cases hu : fs.unix t with
          | none =>
            simp [add_drive_scan, hin, posix, FS.stat, FS.lstat, FS.entry, hd, resolves_to, hu]
          | some st =>
            by_cases hv : is_valid_device st = true <;>
            by_cases hr : (dev_st.st_rdev == st.st_rdev) = true <;>
              simp [add_drive_scan, hin, posix, FS.stat, FS.lstat, FS.entry, hd, resolves_to,
                hu, hv, hr]
    · cases hd : fs.devlink drive with
      | none =>
        simp [add_drive_scan, hin, posix, FS.stat, FS.lstat, FS.entry, hd, hav]
      | some e =>
        cases e with
        | node st =>
          by_cases hv : is_valid_device st = true <;>
          by_cases hr : (dev_st.st_rdev == st.st_rdev) = true <;>
            simp [add_drive_scan, hin, posix, FS.stat, FS.lstat, FS.entry, hd, resolves_to,
              hv, hr]
        | symlink t =>
          cases hu : fs.unix t with
          | none =>
            simp [add_drive_scan, hin, posix, FS.stat, FS.lstat, FS.entry, hd, resolves_to, hu]
          | some st =>
            by_cases hv : is_valid_device st = true <;>
            by_cases hr : (dev_st.st_rdev == st.st_rdev) = true <;>
              simp [add_drive_scan, hin, posix, FS.stat, FS.lstat, FS.entry, hd, resolves_to,
                hu, hv, hr]
theorem resolves_to_devlink_isSome {fs : FS} {dev_st : stat_t} {d : Int}
    (h : resolves_to fs dev_st d = true) : (fs.devlink d).isNone = false := by
  cases hd : fs.devlink d with
  | none => simp [resolves_to, FS.stat, FS.entry, hd] at h
  | some e => rfl

/-- With `avail` already set and no letter of the rest of the range resolving
to the device, the pass runs to the end and keeps `avail`. -/
theorem add_drive_scan_posix_keep (fs : FS) (dev_st : stat_t) (n : Nat) :
    ∀ (drive : Int) (in_use : Int → Bool) (avail : Int), avail ≠ -1 →
      (∀ d, drive ≤ d → d < drive + n → resolves_to fs dev_st d = false) →
      ∃ iu, add_drive_scan posix dev_st n drive in_use avail fs
        = (ScanEnd.finished iu avail, fs) := by
  induction n with
  | zero => intro drive in_use avail _ _; exact ⟨in_use, rfl⟩
  | succ n ih =>
    intro drive in_use avail hav hno
    have hav' : (avail == -1) = false := by simpa using hav
    have h0 : resolves_to fs dev_st drive = false := hno drive (le_refl _) (by push_cast; omega)
    have hrest : ∀ d, drive + 1 ≤ d → d < drive + 1 + n → resolves_to fs dev_st d = false :=
      fun d h1 h2 => hno d (by omega) (by push_cast; omega)
    rw [add_drive_scan_posix_succ]
    simp only [hav', h0, Bool.false_and, Bool.false_eq_true, if_false]
    split_ifs
    · exact ih _ _ _ hav hrest
    · exact ih _ _ _ hav hrest
    · exact ih _ _ _ hav hrest

/-- A pass in which no letter resolves to the device ends with `avail` at the
lowest letter that is unmarked and has no artifact at all. -/
theorem add_drive_scan_posix_lowest (fs : FS) (dev_st : stat_t) (L : Int) (n : Nat) :
    ∀ (drive : Int) (in_use : Int → Bool),
      (∀ d, drive ≤ d → d < drive + n → resolves_to fs dev_st d = false) →
      drive ≤ L → L < drive + n → L ≠ -1 → in_use L = false → no_artifact fs L = true →
      (∀ d, drive ≤ d → d < L → in_use d = true ∨ no_artifact fs d = false) →
      ∃ iu, add_drive_scan posix dev_st n drive in_use (-1) fs
        = (ScanEnd.finished iu L, fs) := by
  induction n with
  | zero => intro drive in_use _ h1 h2; simp only [Nat.cast_zero] at h2; omega
  | succ n ih =>
    intro drive in_use hno h1 h2 hL1 hin hfree hlow
    have h0 : resolves_to fs dev_st drive = false := hno drive (le_refl _) (by push_cast; omega)
    have hrest : ∀ d, drive + 1 ≤ d → d < drive + 1 + n → resolves_to fs dev_st d = false :=
      fun d h1 h2 => hno d (by omega) (by push_cast; omega)
    rw [add_drive_scan_posix_succ]
    by_cases hL : drive = L
    · subst hL
      have hf := hfree
      simp only [no_artifact, Bool.and_eq_true] at hf
      simp only [hin, hf.1, hf.2, Bool.false_eq_true, if_false, if_true, beq_self_eq_true,
        Bool.and_self]
      exact add_drive_scan_posix_keep fs dev_st n _ _ _ hL1 hrest
    · have hlt : drive < L := by omega
      have hlow' : ∀ d, drive + 1 ≤ d → d < L → in_use d = true ∨ no_artifact fs d = false :=
        fun d h1 h2 => hlow d (by omega) h2
      push_cast at h2
      by_cases hiu : in_use drive = true
      · simp only [hiu, if_true]
        exact ih _ _ hrest (by omega) (by omega) hL1 hin hfree hlow'
      · simp only [hiu, if_false, h0, Bool.false_eq_true]
        have hna : no_artifact fs drive = false := by
          rcases hlow drive (le_refl _) hlt with h | h
          · exact absurd h hiu
          · exact h
        by_cases hd : (fs.devlink drive).isNone = true
        · have hm : (fs.mntlink drive).isNone = false := by
            simpa [no_artifact, hd] using hna
          simp only [hd, hm, if_true, Bool.and_false, Bool.false_eq_true, if_false]
          exact ih _ _ hrest (by omega) (by omega) hL1 hin hfree hlow'
        · simp only [hd, if_false]
          refine ih _ _ hrest (by omega) (by omega) hL1 ?_ hfree ?_
          · simp only [hin, ite_eq_right_iff]
            intro h; omega
          · intro d h1 h2
            rcases hlow' d h1 h2 with h | h
            · left; simp [h]
            · right; exact h

/-- A pass over unmarked letters stops at the lowest letter that resolves to
the device. -/
theorem add_drive_scan_posix_match (fs : FS) (dev_st : stat_t) (L : Int) (n : Nat) :
    ∀ (drive : Int) (in_use : Int → Bool) (avail : Int),
      drive ≤ L → L < drive + n →
      (∀ d, in_use d = true → resolves_to fs dev_st d = false) →
      resolves_to fs dev_st L = true →
      (∀ d, drive ≤ d → d < L → resolves_to fs dev_st d = false) →
      add_drive_scan posix dev_st n drive in_use avail fs = (ScanEnd.done L, fs) := by
  induction n with
  | zero => intro drive in_use avail h1 h2; simp only [Nat.cast_zero] at h2; omega
  | succ n ih =>
    intro drive in_use avail h1 h2 hinv hL hbelow
    rw [add_drive_scan_posix_succ]
    push_cast at h2
    by_cases hd : drive = L
    · subst hd
      have hin : in_use drive = false := by
        cases h : in_use drive with
        | false => rfl
        | true => rw [hinv drive h] at hL; cases hL
      simp [hin, resolves_to_devlink_isSome hL, hL]
    · have h0 : resolves_to fs dev_st drive = false := hbelow drive (le_refl _) (by omega)
      have hbelow' : ∀ d, drive + 1 ≤ d → d < L → resolves_to fs dev_st d = false :=
        fun d h1 h2 => hbelow d (by omega) h2
      simp only [h0, Bool.false_eq_true, if_false]
      split_ifs
      · exact ih _ _ _ (by omega) (by omega) hinv hL hbelow'
      · exact ih _ _ _ (by omega) (by omega) hinv hL hbelow'
      · exact ih _ _ _ (by omega) (by omega) hinv hL hbelow'
      · refine ih _ _ _ (by omega) (by omega) ?_ hL hbelow'
        intro d hd'
        by_cases hdd : d = drive
        · subst hdd; exact h0
        · simp only [hdd, if_false] at hd'; exact hinv d hd'
/-! ## C3: lowest free letter -/

/-- C3: on the interference-free filesystem, for every valid device and every
type: if no letter of the type's scan range resolves to the device, `L` is
the lowest letter of the range with no artifact at all, and the claim attempt
on `L` succeeds, then `add_drive` returns `L` and leaves the filesystem with
the device artifact of `L` created as a link to the device path. -/
theorem add_drive_lowest_free (fs : FS) (device : String) (type fuel : Nat)
    (dev_st : stat_t) (L : Int)
    (hdev : fs.unix device = some dev_st) (hvalid : is_valid_device dev_st = true)
    (hnone : ∀ d, add_drive_first type ≤ d → d < add_drive_last type →
      resolves_to fs dev_st d = false)
    (hL1 : add_drive_first type ≤ L) (hL2 : L < add_drive_last type)
    (hfree : no_artifact fs L = true)
    (hlow : ∀ d, add_drive_first type ≤ d → d < L → no_artifact fs d = false)
    (hclaim : (fs.symlink device (Path.dev L)).1 = Except.ok ()) :
    add_drive posix (fuel + 1) device type fs
      = (some L, fs.set (Path.dev L) (some (Entry.symlink device))) := by
  have hfirst : 0 ≤ add_drive_first type := by unfold add_drive_first; split_ifs <;> omega
  have hstat : posix.stat (Path.unix device) fs = (Except.ok dev_st, fs) := by
    simp [posix, FS.stat, FS.entry, hdev]
  have hn : add_drive_first type + ((add_drive_last type - add_drive_first type).toNat : Int)
      = add_drive_last type := by
    rw [Int.toNat_of_nonneg (by omega)]; omega
  obtain ⟨iu, hscan⟩ := add_drive_scan_posix_lowest fs dev_st L
    (add_drive_last type - add_drive_first type).toNat (add_drive_first type) (fun _ => false)
    (fun d h1 h2 => hnone d h1 (by omega)) hL1 (by omega) (by omega) rfl hfree
    (fun d h1 h2 => Or.inr (hlow d h1 h2))
  have hLne : (L != -1) = true := by
    simp only [bne_iff_ne, ne_eq]; omega
  have hlink : posix.symlink device (Path.dev L) fs
      = (Except.ok (), fs.set (Path.dev L) (some (Entry.symlink device))) := by
    have hd : fs.devlink L = none := by
      simp only [no_artifact, Bool.and_eq_true, Option.isNone_iff_eq_none] at hfree
      exact hfree.1
    revert hclaim
    simp only [posix, FS.symlink, FS.entry, hd]
    cases fs.writable <;> simp
  simp only [add_drive, hstat, hvalid, Bool.not_true, Bool.false_eq_true, if_false,
    add_drive_loop, hscan, hLne, if_true, hlink]

theorem add_drive_lowest_free_witness :
    add_drive posix 1 "/dev/sdb1" DRIVE_FIXED example_fs
      = (some 2, example_fs.set (Path.dev 2) (some (Entry.symlink "/dev/sdb1"))) ∧
    add_drive posix 1 "/dev/sdc1" DRIVE_FIXED
        (example_fs.set (Path.dev 2) (some (Entry.symlink "/dev/sdb1")))
      = (some 3, (example_fs.set (Path.dev 2) (some (Entry.symlink "/dev/sdb1"))).set
          (Path.dev 3) (some (Entry.symlink "/dev/sdc1"))) ∧
    add_drive posix 1 "/dev/fd0" DRIVE_REMOVABLE
        ((example_fs.set (Path.dev 2) (some (Entry.symlink "/dev/sdb1"))).set
          (Path.dev 3) (some (Entry.symlink "/dev/sdc1")))
      = (some 0, ((example_fs.set (Path.dev 2) (some (Entry.symlink "/dev/sdb1"))).set
          (Path.dev 3) (some (Entry.symlink "/dev/sdc1"))).set
          (Path.dev 0) (some (Entry.symlink "/dev/fd0"))) :=
  ⟨add_drive_lowest_free example_fs "/dev/sdb1" DRIVE_FIXED 0 ⟨FileKind.blk, 2065⟩ 2
      (by decide) (by decide) (by decide) (by decide) (by decide) (by decide) (by decide)
      rfl,
   add_drive_lowest_free _ "/dev/sdc1" DRIVE_FIXED 0 ⟨FileKind.blk, 2081⟩ 3
      (by decide) (by decide) (by decide) (by decide) (by decide) (by decide) (by decide)
      rfl,
   add_drive_lowest_free _ "/dev/fd0" DRIVE_REMOVABLE 0 ⟨FileKind.blk, 512⟩ 0
      (by decide) (by decide) (by decide) (by decide) (by decide) (by decide) (by decide)
      rfl⟩

/-! ## The probing loop of create_disk_device -/

theorem create_disk_device_probe_spec {σ : Type} (format : NameFormat) (n : Nat) :
    ∀ (i status : Nat) (w : World σ),
    (∃ k, k < n ∧ (⟨format, i + k⟩ : DeviceName) ∉ w.devices ∧
        (∀ j, j < k → (⟨format, i + j⟩ : DeviceName) ∈ w.devices) ∧
        create_disk_device_probe format n i status w
          = (STATUS_SUCCESS, i + k, { w with devices := ⟨format, i + k⟩ :: w.devices })) ∨
    ((∀ j, j < n → (⟨format, i + j⟩ : DeviceName) ∈ w.devices) ∧
        create_disk_device_probe format n i status w
          = (if n = 0 then status else STATUS_OBJECT_NAME_COLLISION, i + n, w)) := by
  induction n with
  | zero =>
    intro i status w
    right
    exact ⟨fun j hj => absurd hj (Nat.not_lt_zero j), rfl⟩
  | succ n ih =>
    intro i status w
    by_cases hb : (⟨format, i⟩ : DeviceName) ∈ w.devices
    · have hstep : create_disk_device_probe format (n + 1) i status w
          = create_disk_device_probe format n (i + 1) STATUS_OBJECT_NAME_COLLISION w := by
        simp [create_disk_device_probe, IoCreateDevice, hb]
      rcases ih (i + 1) STATUS_OBJECT_NAME_COLLISION w with ⟨k, hk, hfree, hbound, heq⟩ | ⟨hall, heq⟩
      · left
        refine ⟨k + 1, by omega, ?_, ?_, ?_⟩
        · have : i + (k + 1) = i + 1 + k := by omega
          rw [this]; exact hfree
        · intro j hj
          cases j with
          | zero => simpa using hb
          | succ j =>
            have : i + (j + 1) = i + 1 + j := by omega
            rw [this]; exact hbound j (by omega)
        · have : i + (k + 1) = i + 1 + k := by omega
          rw [hstep, heq, this]
      · right
        refine ⟨?_, ?_⟩
        · intro j hj
          cases j with
          | zero => simpa using hb
          | succ j =>
            have : i + (j + 1) = i + 1 + j := by omega
            rw [this]; exact hall j (by omega)
        · have : i + (n + 1) = i + 1 + n := by omega
          rw [hstep, heq, this]
          by_cases hn : n = 0 <;> simp [hn]
    · left
      refine ⟨0, by omega, by simpa using hb, fun j hj => absurd hj (Nat.not_lt_zero j), ?_⟩
      simp [create_disk_device_probe, IoCreateDevice, hb, STATUS_SUCCESS,
        STATUS_OBJECT_NAME_COLLISION]

/-- What `create_disk_device` returns, by the state of the device names. -/
theorem create_disk_device_cases {σ : Type} (w : World σ) (udi : Option String)
    (type : Nat) :
    (∃ i, (create_disk_device_format udi type).2 ≤ i ∧ i < 32 ∧
        (⟨(create_disk_device_format udi type).1, i⟩ : DeviceName) ∉ w.devices ∧
        (∀ j, (create_disk_device_format udi type).2 ≤ j → j < i →
          (⟨(create_disk_device_format udi type).1, j⟩ : DeviceName) ∈ w.devices) ∧
        create_disk_device udi type w
          = (STATUS_SUCCESS, w.drives_list.length,
              { w with
                devices := ⟨(create_disk_device_format udi type).1, i⟩ :: w.devices
                drives_list := w.drives_list ++
                  [{ udi := udi, drive := -1, type := type,
                     name := ⟨(create_disk_device_format udi type).1, i⟩,
                     devnum := create_disk_device_devnum udi type i,
                     dosdev := none, volume := none, unix_mount := none }] })) ∨
    ((∀ j, (create_disk_device_format udi type).2 ≤ j → j < 32 →
          (⟨(create_disk_device_format udi type).1, j⟩ : DeviceName) ∈ w.devices) ∧
        (create_disk_device udi type w).1 = STATUS_OBJECT_NAME_COLLISION ∧
        (create_disk_device udi type w).2.2 = w) := by
  have hfirst : (create_disk_device_format udi type).2 ≤ 1 := by
    unfold create_disk_device_format
    split_ifs <;> simp
  · rcases create_disk_device_probe_spec (create_disk_device_format udi type).1
        (32 - (create_disk_device_format udi type).2) (create_disk_device_format udi type).2 0 w
      with ⟨k, hk, hfree, hbound, heq⟩ | ⟨hall, heq⟩
    · left
      refine ⟨(create_disk_device_format udi type).2 + k, by omega, by omega, hfree, ?_, ?_⟩
      · intro j h1 h2
        have := hbound (j - (create_disk_device_format udi type).2) (by omega)
        rwa [Nat.add_sub_cancel' h1] at this
      · simp only [create_disk_device, heq]
        simp [STATUS_SUCCESS]
    · right
      refine ⟨?_, ?_, ?_⟩
      · intro j h1 h2
        have := hall (j - (create_disk_device_format udi type).2) (by omega)
        rwa [Nat.add_sub_cancel' h1] at this
      · simp only [create_disk_device, heq]
        have : ¬ (32 - (create_disk_device_format udi type).2 = 0) := by omega
        simp [this, STATUS_OBJECT_NAME_COLLISION]
      · simp only [create_disk_device, heq]
        have : ¬ (32 - (create_disk_device_format udi type).2 = 0) := by omega
        simp [this, STATUS_OBJECT_NAME_COLLISION]

/-! ## Positions in the drives list -/

theorem getElem?_append_cons_length {α : Type} (pre : List α) (d : α) (post : List α) :
    (pre ++ d :: post)[pre.length]? = some d := by
  induction pre with
  | nil => simp
  | cons a pre ih => simpa using ih

theorem set_append_cons_length {α : Type} (pre : List α) (d d' : α) (post : List α) :
    (pre ++ d :: post).set pre.length d' = pre ++ d' :: post := by
  induction pre with
  | nil => rfl
  | cons a pre ih => simp [ih]

theorem eraseIdx_append_cons_length {α : Type} (pre : List α) (d : α) (post : List α) :
    (pre ++ d :: post).eraseIdx pre.length = pre ++ post := by
  induction pre with
  | nil => rfl
  | cons a pre ih => simpa using ih

theorem split_at_getElem? {α : Type} (l : List α) (i : Nat) (d : α) (h : l[i]? = some d) :
    ∃ pre post, l = pre ++ d :: post ∧ pre.length = i := by
  induction l generalizing i with
  | nil => simp at h
  | cons a l ih =>
    cases i with
    | zero =>
      simp at h
      exact ⟨[], l, by simp [h], rfl⟩
    | succ i =>
      simp at h
      obtain ⟨pre, post, h1, h2⟩ := ih i h
      exact ⟨a :: pre, post, by simp [h1], by simp [h2]⟩

/-! ## What the drive-level functions do to the list and the filesystem -/

theorem delete_disk_device_drives {σ : Type} (i : Nat) (w : World σ) :
    (delete_disk_device i w).drives_list = w.drives_list.eraseIdx i ∧
    (delete_disk_device i w).fs = w.fs := by
  unfold delete_disk_device
  cases h : w.drives_list[i]? with
  | none =>
    simp only
    refine ⟨?_, trivial⟩
    rw [List.eraseIdx_of_length_le]
    exact List.getElem?_eq_none_iff.mp h
  | some d =>
    simp only
    cases d.dosdev <;> cases d.volume <;> exact ⟨rfl, rfl⟩

theorem set_drive_letter_drives {σ : Type} (i : Nat) (letter : Int) (w : World σ)
    (d : dos_drive) (hd : w.drives_list[i]? = some d) :
    ∃ d', (set_drive_letter i letter w).drives_list = w.drives_list.set i d' ∧
      d'.udi = d.udi ∧ d'.type = d.type ∧ d'.name = d.name ∧ d'.drive = letter ∧
      (set_drive_letter i letter w).fs = w.fs := by
  unfold set_drive_letter
  simp only [hd]
  by_cases h1 : d.drive = letter
  · simp only [h1, if_true]
    refine ⟨d, ?_, rfl, rfl, rfl, h1, trivial⟩
    obtain ⟨pre, post, h2, h3⟩ := split_at_getElem? _ _ _ hd
    rw [h2, ← h3, set_append_cons_length]
  · simp only [h1, if_false]
    by_cases h2 : letter = -1
    · simp only [h2, if_true]
      refine ⟨{ d with drive := -1 }, ?_, rfl, rfl, rfl, rfl, ?_⟩ <;>
        cases d.dosdev <;> cases d.volume <;> rfl
    · simp only [h2, if_false]
      cases hdd : d.dosdev <;> cases hdv : d.volume <;>
        exact ⟨_, rfl, rfl, rfl, rfl, rfl, rfl⟩

theorem set_drive_mount_ids_drives {σ : Type} (d : dos_drive) (id : Option String)
    (w : World σ) :
    (set_drive_mount_ids d id w).drives_list = w.drives_list ∧
    (set_drive_mount_ids d id w).fs = w.fs := by
  unfold set_drive_mount_ids
  cases d.dosdev <;> cases d.volume <;> exact ⟨rfl, rfl⟩

theorem set_unix_mount_point_drives {σ : Type} (sys : Sys σ) (i : Nat)
    (mount_point : Option String) (w : World σ) (d : dos_drive)
    (hd : w.drives_list[i]? = some d) :
    ∃ d', (set_unix_mount_point sys i mount_point w).2.drives_list = w.drives_list.set i d' ∧
      d'.udi = d.udi ∧ d'.type = d.type ∧ d'.name = d.name ∧ d'.drive = d.drive := by
  unfold set_unix_mount_point
  simp only [hd]
  cases mount_point.filter (fun mp => mp != "") with
  | none =>
    simp only
    exact ⟨_, (set_drive_mount_ids_drives _ _ _).1, rfl, rfl, rfl, rfl⟩
  | some mp =>
    simp only
    exact ⟨_, (set_drive_mount_ids_drives _ _ _).1, rfl, rfl, rfl, rfl⟩
/-- The list traversal of `add_dos_device`: the entries it keeps neither carry
the identifier nor hold the letter; it either runs to the end, or stops at the
first remaining entry with the identifier, whose type is the given one. -/
theorem add_dos_device_find_spec {σ : Type} (udi : String) (type : Nat) (letter : Int) :
    ∀ (todo : List dos_drive) (n : Nat) (pre : List dos_drive) (w : World σ),
      w.drives_list = pre ++ todo → todo.length ≤ n →
      ∃ kept, (∀ d ∈ kept, d.udi ≠ some udi ∧ d.drive ≠ letter) ∧
        (add_dos_device_find udi type letter n pre.length w).2.fs = w.fs ∧
        (((add_dos_device_find udi type letter n pre.length w).1 = none ∧
            (add_dos_device_find udi type letter n pre.length w).2.drives_list = pre ++ kept ∧
            kept.Sublist todo) ∨
          (∃ E rest,
            (add_dos_device_find udi type letter n pre.length w).1
              = some (pre ++ kept).length ∧
            (add_dos_device_find udi type letter n pre.length w).2.drives_list
              = pre ++ kept ++ E :: rest ∧
            E.udi = some udi ∧ E.type = type ∧ (kept ++ E :: rest).Sublist todo)) := by
  intro todo
  induction todo with
  | nil =>
    intro n pre w hw _
    refine ⟨[], by simp, ?_, Or.inl ?_⟩
    · cases n with
      | zero => rfl
      | succ n =>
        have : w.drives_list[pre.length]? = none := by simp [hw]
        simp [add_dos_device_find, this]
    · cases n with
      | zero => exact ⟨rfl, by simpa using hw, List.Sublist.refl _⟩
      | succ n =>
        have : w.drives_list[pre.length]? = none := by simp [hw]
        simp [add_dos_device_find, this, hw]
  | cons d t ih =>
    intro n pre w hw hn
    cases n with
    | zero => simp at hn
    | succ n =>
      have hlen : t.length ≤ n := by simpa using hn
      have hget : w.drives_list[pre.length]? = some d := by
        rw [hw]; exact getElem?_append_cons_length pre d t
      have hdel : (delete_disk_device pre.length w).drives_list = pre ++ t := by
        rw [(delete_disk_device_drives _ _).1, hw, eraseIdx_append_cons_length]
      have hdelfs : (delete_disk_device pre.length w).fs = w.fs :=
        (delete_disk_device_drives _ _).2
      simp only [add_dos_device_find, hget]
      by_cases hu : d.udi = some udi
      · simp only [hu, if_true]
        by_cases ht : type = d.type
        · rw [if_pos ht]
          exact ⟨[], by simp, rfl, Or.inr ⟨d, t, by simp, by simpa using hw, hu, ht.symm,
            by simp⟩⟩
        · simp only [ht, if_false]
          obtain ⟨kept, hk, hfs, hres⟩ := ih n pre (delete_disk_device pre.length w) hdel hlen
          refine ⟨kept, hk, hfs.trans hdelfs, ?_⟩
          rcases hres with ⟨h1, h2, h3⟩ | ⟨E, rest, h1, h2, h3, h4, h5⟩
          · exact Or.inl ⟨h1, h2, h3.trans (List.sublist_cons_self d t)⟩
          · exact Or.inr ⟨E, rest, h1, h2, h3, h4, h5.trans (List.sublist_cons_self d t)⟩
      · simp only [hu, if_false]
        by_cases hl : d.drive = letter
        · simp only [hl, if_true]
          obtain ⟨kept, hk, hfs, hres⟩ := ih n pre (delete_disk_device pre.length w) hdel hlen
          refine ⟨kept, hk, hfs.trans hdelfs, ?_⟩
          rcases hres with ⟨h1, h2, h3⟩ | ⟨E, rest, h1, h2, h3, h4, h5⟩
          · exact Or.inl ⟨h1, h2, h3.trans (List.sublist_cons_self d t)⟩
          · exact Or.inr ⟨E, rest, h1, h2, h3, h4, h5.trans (List.sublist_cons_self d t)⟩
        · simp only [hl, if_false]
          have hw' : w.drives_list = (pre ++ [d]) ++ t := by simp [hw]
          have hlen' : (pre ++ [d]).length = pre.length + 1 := by simp
          obtain ⟨kept, hk, hfs, hres⟩ := ih n (pre ++ [d]) w hw' hlen
          rw [hlen'] at hfs hres
          refine ⟨d :: kept, ?_, hfs, ?_⟩
          · intro x hx
            rcases List.mem_cons.mp hx with rfl | hx
            · exact ⟨hu, hl⟩
            · exact hk x hx
          · rcases hres with ⟨h1, h2, h3⟩ | ⟨E, rest, h1, h2, h3, h4, h5⟩
            · exact Or.inl ⟨h1, by simpa using h2, h3.cons₂ d⟩
            · refine Or.inr ⟨E, rest, ?_, by simpa using h2, h3, h4, ?_⟩
              · simpa using h1
              · simpa using h5.cons₂ d

/-- When the first entry with the identifier has the given type and no entry
before it holds the letter, the traversal stops there and changes nothing. -/
theorem add_dos_device_find_hit {σ : Type} (udi : String) (type : Nat) (letter : Int)
    (E : dos_drive) (post : List dos_drive) (hE : E.udi = some udi) (hT : E.type = type) :
    ∀ (pre done : List dos_drive) (n : Nat) (w : World σ),
      w.drives_list = done ++ pre ++ E :: post → pre.length < n →
      (∀ d ∈ pre, d.udi ≠ some udi ∧ d.drive ≠ letter) →
      add_dos_device_find udi type letter n done.length w
        = (some (done ++ pre).length, w) := by
  intro pre
  induction pre with
  | nil =>
    intro done n w hw hn _
    cases n with
    | zero => simp at hn
    | succ n =>
      have hget : w.drives_list[done.length]? = some E := by
        rw [hw]; simpa using getElem?_append_cons_length done E post
      simp [add_dos_device_find, hget, hE, hT]
  | cons d pre ih =>
    intro done n w hw hn hpre
    cases n with
    | zero => simp at hn
    | succ n =>
      have hget : w.drives_list[done.length]? = some d := by
        rw [hw]
        have : done ++ d :: pre ++ E :: post = done ++ d :: (pre ++ E :: post) := by simp
        rw [this]; exact getElem?_append_cons_length done d _
      have hd := hpre d (List.mem_cons_self d pre)
      have := ih (done ++ [d]) n w (by simp [hw]) (by simpa using hn)
        (fun x hx => hpre x (List.mem_cons_of_mem d hx))
      simp only [add_dos_device_find, hget, hd.1, hd.2, if_false]
      simpa using this

/-! ## Effects on the interference-free filesystem -/

theorem same_dev_refl (fs : FS) : same_dev fs fs := ⟨rfl, rfl, rfl⟩

theorem same_dev_trans {fs fs1 fs2 : FS} (h1 : same_dev fs fs1) (h2 : same_dev fs1 fs2) :
    same_dev fs fs2 :=
  ⟨h2.1.trans h1.1, h2.2.1.trans h1.2.1, h2.2.2.trans h1.2.2⟩

theorem same_dev_set_mnt (fs : FS) (d : Int) (e : Option Entry) :
    same_dev fs (fs.set (Path.mnt d) e) := ⟨rfl, rfl, rfl⟩

theorem same_dev_unlink_mnt (fs : FS) (d : Int) : same_dev fs (fs.unlink (Path.mnt d)).2 := by
  unfold FS.unlink
  simp only
  cases fs.entry (Path.mnt d) with
  | none => exact same_dev_refl fs
  | some e =>
    simp only
    cases fs.writable with
    | false => exact same_dev_refl fs
    | true =>
      simp only [Bool.not_true, Bool.false_eq_true, if_false]
      split
      · exact same_dev_refl fs
      · exact same_dev_set_mnt fs d none

theorem same_dev_symlink_mnt (fs : FS) (t : String) (d : Int) :
    same_dev fs (fs.symlink t (Path.mnt d)).2 := by
  unfold FS.symlink
  simp only
  cases fs.writable with
  | false => exact same_dev_refl fs
  | true =>
    simp only [Bool.not_true, Bool.false_eq_true, if_false]
    cases fs.entry (Path.mnt d) with
    | none => exact same_dev_set_mnt fs d _
    | some e => exact same_dev_refl fs

theorem resolves_to_same_dev {fs fs1 : FS} (h : same_dev fs fs1) (dev_st : stat_t) (d : Int) :
    resolves_to fs1 dev_st d = resolves_to fs dev_st d := by
  unfold resolves_to FS.stat FS.entry
  simp only [h.1, h.2.1]

theorem set_unix_mount_point_posix_fs (i : Nat) (mount_point : Option String)
    (w : World FS) : same_dev w.fs (set_unix_mount_point posix i mount_point w).2.fs := by
  unfold set_unix_mount_point
  cases w.drives_list[i]? with
  | none => exact same_dev_refl _
  | some d =>
    simp only
    cases mount_point.filter (fun mp => mp != "") with
    | none =>
      simp only
      rw [(set_drive_mount_ids_drives _ _ _).2]
      exact same_dev_unlink_mnt _ _
    | some mp =>
      simp only
      rw [(set_drive_mount_ids_drives _ _ _).2]
      simp only
      split_ifs
      · exact same_dev_trans (same_dev_unlink_mnt _ _) (same_dev_symlink_mnt _ _ _)
      · exact same_dev_refl _

/-- The part after `found` rewrites the drive at the given position: the
identifier, type and name stay, the letter becomes the given one. -/
theorem add_dos_device_found_drives {σ : Type} (sys : Sys σ) (letter : Int)
    (mount_point : Option String) (type : Nat) (w : World σ)
    (pre : List dos_drive) (E : dos_drive) (post : List dos_drive)
    (hw : w.drives_list = pre ++ E :: post) (hl : letter ≠ -1) :
    ∃ E', (add_dos_device_found sys pre.length letter mount_point type w).drives_list
        = pre ++ E' :: post ∧
      E'.udi = E.udi ∧ E'.type = E.type ∧ E'.name = E.name ∧ E'.drive = letter ∧
      (add_dos_device_found sys pre.length letter mount_point type w).fs
        = (set_unix_mount_point sys pre.length mount_point
            (set_drive_letter pre.length letter w)).2.fs := by
  have hget : w.drives_list[pre.length]? = some E := by
    rw [hw]; exact getElem?_append_cons_length pre E post
  obtain ⟨E1, h1, hu1, ht1, hn1, hd1, _⟩ := set_drive_letter_drives pre.length letter w E hget
  have h1' : (set_drive_letter pre.length letter w).drives_list = pre ++ E1 :: post := by
    rw [h1, hw, set_append_cons_length]
  have hget1 : (set_drive_letter pre.length letter w).drives_list[pre.length]? = some E1 := by
    rw [h1']; exact getElem?_append_cons_length pre E1 post
  obtain ⟨E2, h2, hu2, ht2, hn2, hd2⟩ :=
    set_unix_mount_point_drives sys pre.length mount_point _ E1 hget1
  have h2' : (set_unix_mount_point sys pre.length mount_point
      (set_drive_letter pre.length letter w)).2.drives_list = pre ++ E2 :: post := by
    rw [h2, h1', set_append_cons_length]
  have hget2 : (set_unix_mount_point sys pre.length mount_point
      (set_drive_letter pre.length letter w)).2.drives_list[pre.length]? = some E2 := by
    rw [h2']; exact getElem?_append_cons_length pre E2 post
  have hne : (E2.drive != -1) = true := by
    simp only [bne_iff_ne, ne_eq, hd2, hd1]; exact hl
  refine ⟨E2, ?_, hu2.trans hu1, ht2.trans ht1, hn2.trans hn1, hd2.trans hd1, ?_⟩
  · simp only [add_dos_device_found, hget2, hne, if_true]
    exact h2'
  · simp only [add_dos_device_found, hget2, hne, if_true]
    rfl

/-! ## Outcomes of add_dos_device -/

/-- A successful attach: `add_drive` gave a letter, and the registry ends with
a drive carrying the identifier, the type and that letter, in front of which
no drive carries the identifier or holds the letter.  The drive is either an
earlier one rewritten in place or a new one at the tail. -/
theorem add_dos_device_success {σ : Type} (sys : Sys σ) (fuel : Nat) (udi device : String)
    (mount_point : Option String) (type : Nat) (w w1 : World σ)
    (h : add_dos_device sys fuel udi device mount_point type w = (some true, w1)) :
    ∃ (letter : Int) (fs1 : σ) (pre : List dos_drive) (E : dos_drive) (post : List dos_drive)
      (w' : World σ),
      add_drive sys fuel device type w.fs = (some letter, fs1) ∧ letter ≠ -1 ∧
      w'.fs = fs1 ∧ w1 = add_dos_device_found sys pre.length letter mount_point type w' ∧
      w1.drives_list = pre ++ E :: post ∧
      (∀ d ∈ pre, d.udi ≠ some udi ∧ d.drive ≠ letter) ∧
      E.udi = some udi ∧ E.type = type ∧ E.drive = letter ∧
      ((∃ E0, E0.udi = E.udi ∧ E0.name = E.name ∧ (pre ++ E0 :: post).Sublist w.drives_list) ∨
        (post = [] ∧ pre.Sublist w.drives_list)) := by
  simp only [add_dos_device] at h
  rcases hadd : add_drive sys fuel device type w.fs with ⟨r, fs1⟩
  rw [hadd] at h
  cases r with
  | none => simp at h
  | some letter =>
    simp only at h
    by_cases hl : letter = -1
    · simp [hl] at h
    · simp only [hl, if_false] at h
      obtain ⟨kept, hk, hfs, hres⟩ := add_dos_device_find_spec udi type letter
        w.drives_list w.drives_list.length []
        ({ w with fs := fs1 } : World σ) (by simp) (le_refl _)
      simp only [List.length_nil, List.nil_append] at hfs hres
      have hlen : ({ w with fs := fs1 } : World σ).drives_list.length = w.drives_list.length :=
        rfl
      rw [hlen] at h
      rcases hfind : add_dos_device_find udi type letter w.drives_list.length 0
        ({ w with fs := fs1 } : World σ) with ⟨r2, w2⟩
      rw [hfind] at h hfs hres
      simp only at hfs hres
      rcases hres with ⟨h1, h2, h3⟩ | ⟨E, rest, h1, h2, h3, h4, h5⟩
      · subst h1
        simp only at h
        have hc := create_disk_device_cases w2 (some udi) type
        rcases hc with ⟨i, _, _, _, _, hc⟩ | ⟨_, hc, _⟩
        · rw [hc] at h
          simp only [STATUS_SUCCESS, bne_self_eq_false, Bool.false_eq_true, if_false,
            Prod.mk.injEq, true_and] at h
          obtain ⟨E', e1, e2, e3, e4, e5, _⟩ := add_dos_device_found_drives sys letter
            mount_point type
            ({ w2 with
                devices := ⟨(create_disk_device_format (some udi) type).1, i⟩ :: w2.devices
                drives_list := w2.drives_list ++
                  [{ udi := some udi, drive := -1, type := type,
                     name := ⟨(create_disk_device_format (some udi) type).1, i⟩,
                     devnum := create_disk_device_devnum (some udi) type i,
                     dosdev := none, volume := none, unix_mount := none }] } : World σ)
            w2.drives_list _ [] rfl hl
          refine ⟨letter, fs1, w2.drives_list, E', [], _, rfl, hl, ?_, h.symm, ?_, ?_, e2, e3,
            e5, Or.inr ⟨rfl, ?_⟩⟩
          · exact hfs
          · rw [← h]; exact e1
          · rw [h2]; exact hk
          · rw [h2]; exact h3
        · rw [show create_disk_device (some udi) type w2
              = ((create_disk_device (some udi) type w2).1,
                  (create_disk_device (some udi) type w2).2.1,
                  (create_disk_device (some udi) type w2).2.2) from rfl, hc] at h
          simp [STATUS_OBJECT_NAME_COLLISION] at h
      · subst h1
        simp only [Prod.mk.injEq, true_and] at h
        obtain ⟨E', e1, e2, e3, e4, e5, _⟩ := add_dos_device_found_drives sys letter
          mount_point type w2 kept E rest h2 hl
        refine ⟨letter, fs1, kept, E', rest, w2, rfl, hl, hfs, h.symm, ?_, hk, e2.trans h3,
          e3.trans h4, e5, Or.inl ⟨E, e2.symm, e4.symm, h5⟩⟩
        rw [← h]; exact e1

/-- An attach never adds to the identifiers except its own: when it does not
succeed the registry only shrinks. -/
theorem add_dos_device_failure {σ : Type} (sys : Sys σ) (fuel : Nat) (udi device : String)
    (mount_point : Option String) (type : Nat) (w w1 : World σ) (r : Option Bool)
    (h : add_dos_device sys fuel udi device mount_point type w = (r, w1))
    (hr : r ≠ some true) : w1.drives_list.Sublist w.drives_list := by
  simp only [add_dos_device] at h
  rcases hadd : add_drive sys fuel device type w.fs with ⟨r0, fs1⟩
  rw [hadd] at h
  cases r0 with
  | none =>
    simp only [Prod.mk.injEq] at h
    rw [← h.2]
  | some letter =>
    simp only at h
    by_cases hl : letter = -1
    · simp only [hl, if_true, Prod.mk.injEq] at h
      rw [← h.2]
    · simp only [hl, if_false] at h
      obtain ⟨kept, hk, hfs, hres⟩ := add_dos_device_find_spec udi type letter
        w.drives_list w.drives_list.length []
        ({ w with fs := fs1 } : World σ) (by simp) (le_refl _)
      simp only [List.length_nil, List.nil_append] at hfs hres
      have hlen : ({ w with fs := fs1 } : World σ).drives_list.length = w.drives_list.length :=
        rfl
      rw [hlen] at h
      rcases hfind : add_dos_device_find udi type letter w.drives_list.length 0
        ({ w with fs := fs1 } : World σ) with ⟨r2, w2⟩
      rw [hfind] at h hfs hres
      simp only at hfs hres
      rcases hres with ⟨h1, h2, h3⟩ | ⟨E, rest, h1, h2, h3, h4, h5⟩
      · subst h1
        simp only at h
        have hc := create_disk_device_cases w2 (some udi) type
        rcases hc with ⟨i, _, _, _, _, hc⟩ | ⟨_, hc, hc2⟩
        · rw [hc] at h
          simp only [STATUS_SUCCESS, bne_self_eq_false, Bool.false_eq_true, if_false,
            Prod.mk.injEq] at h
          exact absurd h.1.symm hr
        · rw [show create_disk_device (some udi) type w2
              = ((create_disk_device (some udi) type w2).1,
                  (create_disk_device (some udi) type w2).2.1,
                  (create_disk_device (some udi) type w2).2.2) from rfl, hc, hc2] at h
          simp only [STATUS_OBJECT_NAME_COLLISION, Prod.mk.injEq] at h
          have : w1 = w2 := by
            revert h; simp only [bne_iff_ne, ne_eq, Nat.reduceEqDiff, not_false_eq_true,
              if_true, Prod.mk.injEq]
            intro h; exact h.2.symm
          rw [this, h2]; exact h3
      · subst h1
        simp only [Prod.mk.injEq] at h
        exact absurd h.1.symm hr

/-! ## Outcomes of remove_dos_device -/

theorem remove_dos_device_find_spec (udi : String) :
    ∀ (l : List dos_drive) (i : Nat),
      (remove_dos_device_find udi l i = none ∧ ∀ d ∈ l, d.udi ≠ some udi) ∨
      (∃ pre E post, l = pre ++ E :: post ∧
        remove_dos_device_find udi l i = some (i + pre.length) ∧
        E.udi = some udi ∧ ∀ d ∈ pre, d.udi ≠ some udi) := by
  intro l
  induction l with
  | nil => intro i; exact Or.inl ⟨rfl, by simp⟩
  | cons d t ih =>
    intro i
    by_cases hu : d.udi = some udi
    · exact Or.inr ⟨[], d, t, rfl, by simp [remove_dos_device_find, hu], hu, by simp⟩
    · rcases ih (i + 1) with ⟨h1, h2⟩ | ⟨pre, E, post, h1, h2, h3, h4⟩
      · left
        refine ⟨by simp [remove_dos_device_find, hu, h1], ?_⟩
        intro x hx
        rcases List.mem_cons.mp hx with rfl | hx
        · exact hu
        · exact h2 x hx
      · right
        refine ⟨d :: pre, E, post, by simp [h1], ?_, h3, ?_⟩
        · simp only [remove_dos_device_find, hu, if_false, h2, List.length_cons]
          congr 1; omega
        · intro x hx
          rcases List.mem_cons.mp hx with rfl | hx
          · exact hu
          · exact h4 x hx

/-- Detaching an identifier that no drive carries changes nothing. -/
theorem remove_dos_device_miss {σ : Type} (sys : Sys σ) (udi : String) (w : World σ)
    (h : ∀ d ∈ w.drives_list, d.udi ≠ some udi) :
    remove_dos_device sys udi w = (false, w) := by
  rcases remove_dos_device_find_spec udi w.drives_list 0 with ⟨h1, _⟩ | ⟨pre, E, post, h1, _, h3, _⟩
  · simp [remove_dos_device, h1]
  · exact absurd h3 (h E (by rw [h1]; simp))

/-- Detaching removes the first drive that carries the identifier. -/
theorem remove_dos_device_hit {σ : Type} (sys : Sys σ) (udi : String) (w : World σ)
    (pre : List dos_drive) (E : dos_drive) (post : List dos_drive)
    (hw : w.drives_list = pre ++ E :: post) (hE : E.udi = some udi)
    (hpre : ∀ d ∈ pre, d.udi ≠ some udi) :
    (remove_dos_device sys udi w).1 = true ∧
    (remove_dos_device sys udi w).2.drives_list = pre ++ post ∧
    (remove_dos_device sys udi w).2.fs
      = (if E.drive != -1 then (set_unix_mount_point sys pre.length none w).2.fs else w.fs) := by
  have hfind : remove_dos_device_find udi w.drives_list 0 = some pre.length := by
    rcases remove_dos_device_find_spec udi w.drives_list 0 with
      ⟨_, h2⟩ | ⟨pre', E', post', h1, h2, h3, h4⟩
    · exact absurd hE (h2 E (by rw [hw]; simp))
    · rw [h2, Nat.zero_add]
      congr 1
      rw [hw] at h1
      by_contra hne
      rcases Nat.lt_or_gt_of_ne hne with hlt | hgt
      · have e1 : (pre ++ E :: post)[pre'.length]? = some E' := by
          rw [h1]; exact getElem?_append_cons_length _ _ _
        rw [List.getElem?_append_left hlt] at e1
        exact hpre E' (List.getElem?_mem e1) h3
      · have e1 : (pre' ++ E' :: post')[pre.length]? = some E := by
          rw [← h1]; exact getElem?_append_cons_length _ _ _
        rw [List.getElem?_append_left hgt] at e1
        exact h4 E (List.getElem?_mem e1) hE
  have hget : w.drives_list[pre.length]? = some E := by
    rw [hw]; exact getElem?_append_cons_length pre E post
  simp only [remove_dos_device, hfind, hget]
  by_cases hd : (E.drive != -1) = true
  · simp only [hd, if_true]
    obtain ⟨E1, h1, _⟩ := set_unix_mount_point_drives sys pre.length none w E hget
    have h1' : (set_unix_mount_point sys pre.length none w).2.drives_list = pre ++ E1 :: post := by
      rw [h1, hw, set_append_cons_length]
    refine ⟨trivial, ?_, ?_⟩
    · rw [(delete_disk_device_drives _ _).1]
      split_ifs
      · show (set_unix_mount_point sys pre.length none w).2.drives_list.eraseIdx pre.length = _
        rw [h1', eraseIdx_append_cons_length]
      · show (set_unix_mount_point sys pre.length none w).2.drives_list.eraseIdx pre.length = _
        rw [h1', eraseIdx_append_cons_length]
    · rw [(delete_disk_device_drives _ _).2]
      split_ifs <;> rfl
  · simp only [hd, if_false, Bool.false_eq_true]
    refine ⟨trivial, ?_, ?_⟩
    · rw [(delete_disk_device_drives _ _).1, hw, eraseIdx_append_cons_length]
    · exact (delete_disk_device_drives _ _).2
/-! ## C5: identifiers are unique in reachable states -/

theorem udi_unique_of_sublist {l l1 : List dos_drive} (h : l1.Sublist l)
    (hu : udi_unique l) : udi_unique l1 :=
  List.Nodup.sublist (h.filterMap _) hu

theorem filterMap_udi_replace (pre post : List dos_drive) (E E0 : dos_drive)
    (h : E0.udi = E.udi) :
    (pre ++ E :: post).filterMap (fun d => d.udi)
      = (pre ++ E0 :: post).filterMap (fun d => d.udi) := by
  simp [List.filterMap_append, List.filterMap_cons, h]

theorem udi_unique_of_no_udi {l : List dos_drive} (h : ∀ d ∈ l, d.udi = none) :
    udi_unique l := by
  have : l.filterMap (fun d => d.udi) = [] := by
    rw [List.filterMap_eq_nil_iff]
    exact h
  unfold udi_unique
  rw [this]
  exact List.nodup_nil

theorem create_drive_devices_step_no_udi {σ : Type} (sys : Sys σ) (i : Nat) (w : World σ)
    (h : ∀ d ∈ w.drives_list, d.udi = none) :
    ∀ d ∈ (create_drive_devices_step sys i w).drives_list, d.udi = none := by
  unfold create_drive_devices_step
  rcases sys.readlink (Path.mnt i) w.fs with ⟨r, fs1⟩
  cases r with
  | error e => exact h
  | ok link =>
    simp only
    generalize (match ({ w with fs := fs1 } : World σ).drives_key (i : Int) with
      | some buffer => (registry_drive_type buffer).getD (if i < 2 then DRIVE_REMOVABLE else DRIVE_FIXED)
      | none => if i < 2 then DRIVE_REMOVABLE else DRIVE_FIXED) = drive_type
    have hc := create_disk_device_cases ({ w with fs := fs1 } : World σ) none drive_type
    rcases hc with ⟨u, _, _, _, _, hc⟩ | ⟨_, hc, hc2⟩
    · rw [hc]
      simp only [STATUS_SUCCESS, if_true]
      have hget : (w.drives_list ++
          [({ udi := none, drive := -1, type := drive_type,
              name := ⟨(create_disk_device_format none drive_type).1, u⟩,
              devnum := create_disk_device_devnum none drive_type u,
              dosdev := none, volume := none, unix_mount := none } : dos_drive)])[
            w.drives_list.length]? = some _ := getElem?_append_cons_length _ _ []
      simp only [hget]
      intro d hd
      obtain ⟨d', h1, h2, _⟩ := set_drive_letter_drives w.drives_list.length (i : Int)
        ({ w with
            fs := fs1
            devices := ⟨(create_disk_device_format none drive_type).1, u⟩ :: w.devices
            drives_list := (w.drives_list ++
              [({ udi := none, drive := -1, type := drive_type,
                  name := ⟨(create_disk_device_format none drive_type).1, u⟩,
                  devnum := create_disk_device_devnum none drive_type u,
                  dosdev := none, volume := none, unix_mount := none } : dos_drive)]).set
                w.drives_list.length
                { udi := none, drive := -1, type := drive_type,
                  name := ⟨(create_disk_device_format none drive_type).1, u⟩,
                  devnum := create_disk_device_devnum none drive_type u,
                  dosdev := none, volume := none, unix_mount := some link } } : World σ)
        { udi := none, drive := -1, type := drive_type,
          name := ⟨(create_disk_device_format none drive_type).1, u⟩,
          devnum := create_disk_device_devnum none drive_type u,
          dosdev := none, volume := none, unix_mount := some link }
        (by simp [set_append_cons_length, getElem?_append_cons_length])
      rw [h1] at hd
      simp only [set_append_cons_length, List.mem_append, List.mem_singleton] at hd
      rcases hd with hd | hd
      · exact h d hd
      · rw [hd]; exact h2
    · rw [show create_disk_device none drive_type ({ w with fs := fs1 } : World σ)
          = ((create_disk_device none drive_type ({ w with fs := fs1 } : World σ)).1,
              (create_disk_device none drive_type ({ w with fs := fs1 } : World σ)).2.1,
              (create_disk_device none drive_type ({ w with fs := fs1 } : World σ)).2.2)
          from rfl, hc, hc2]
      simp only [STATUS_OBJECT_NAME_COLLISION]
      exact h

theorem create_drive_devices_from_no_udi {σ : Type} (sys : Sys σ) (n : Nat) :
    ∀ (i : Nat) (w : World σ), (∀ d ∈ w.drives_list, d.udi = none) →
      ∀ d ∈ (create_drive_devices_from sys n i w).drives_list, d.udi = none := by
  induction n with
  | zero => intro i w h; exact h
  | succ n ih =>
    intro i w h
    exact ih (i + 1) _ (create_drive_devices_step_no_udi sys i w h)

theorem harddisk_driver_entry_no_udi {σ : Type} (sys : Sys σ) (w : World σ)
    (h : w.drives_list = []) :
    ∀ d ∈ (harddisk_driver_entry sys w).2.drives_list, d.udi = none := by
  unfold harddisk_driver_entry IoCreateDevice
  split_ifs with h1
  · simp [STATUS_OBJECT_NAME_COLLISION, h]
  · simp only [STATUS_SUCCESS, bne_self_eq_false, Bool.false_eq_true, if_false]
    apply create_drive_devices_from_no_udi
    simp [h]

theorem remove_dos_device_sublist {σ : Type} (sys : Sys σ) (udi : String) (w : World σ) :
    (remove_dos_device sys udi w).2.drives_list.Sublist w.drives_list := by
  rcases remove_dos_device_find_spec udi w.drives_list 0 with
    ⟨_, h2⟩ | ⟨pre, E, post, h1, _, h3, h4⟩
  · rw [remove_dos_device_miss sys udi w h2]
  · rw [(remove_dos_device_hit sys udi w pre E post h1 h3 h4).2.1, h1]
    exact List.Sublist.append_left (List.sublist_cons_self E post) pre

/-- No reachable registry holds two drives with the same identifier. -/
theorem reachable_udi_unique {σ : Type} (sys : Sys σ) (w : World σ)
    (h : Reachable sys w) : udi_unique w.drives_list := by
  induction h with
  | empty w h0 => exact udi_unique_of_no_udi (by simp [h0])
  | bootstrap w h0 => exact udi_unique_of_no_udi (harddisk_driver_entry_no_udi sys w h0)
  | attach w fuel udi device mount_point type b w1 _ hstep ih =>
    by_cases hb : b = true
    · subst hb
      obtain ⟨letter, fs1, pre, E, post, w', _, _, _, _, h5, h6, h7, _, _, h10⟩ :=
        add_dos_device_success sys fuel udi device mount_point type w w1 hstep
      rw [h5]
      rcases h10 with ⟨E0, e1, _, e2⟩ | ⟨e1, e2⟩
      · unfold udi_unique
        rw [filterMap_udi_replace pre post E E0 e1]
        exact udi_unique_of_sublist e2 ih
      · subst e1
        have hpre := udi_unique_of_sublist e2 ih
        unfold udi_unique at hpre ⊢
        rw [List.filterMap_append]
        simp only [List.filterMap_cons, h7, List.filterMap_nil]
        rw [List.nodup_append]
        refine ⟨hpre, List.nodup_singleton _, ?_⟩
        intro a ha hb
        rw [List.mem_singleton] at hb
        subst hb
        rw [List.mem_filterMap] at ha
        obtain ⟨d, hd, hdu⟩ := ha
        exact (h6 d hd).1 hdu
    · exact udi_unique_of_sublist
        (add_dos_device_failure sys fuel udi device mount_point type w w1 (some b) hstep
          (by simpa using hb)) ih
  | detach w udi _ ih => exact udi_unique_of_sublist (remove_dos_device_sublist sys udi w) ih
  | environment w fs1 _ ih => exact ih

/-- C5: in every state reachable from the empty registry by bootstrap, attach
and detach calls, after `remove_dos_device` returns true the registry holds
no drive with the given identifier; it returns false exactly when no drive
with that identifier was registered, and then the state is unchanged. -/
theorem remove_dos_device_removal {σ : Type} (sys : Sys σ) (udi : String) (w : World σ)
    (h : Reachable sys w) :
    ((remove_dos_device sys udi w).1 = true →
      ∀ d ∈ (remove_dos_device sys udi w).2.drives_list, d.udi ≠ some udi) ∧
    ((remove_dos_device sys udi w).1 = false ↔ ∀ d ∈ w.drives_list, d.udi ≠ some udi) ∧
    ((remove_dos_device sys udi w).1 = false → (remove_dos_device sys udi w).2 = w) := by
  have hu := reachable_udi_unique sys w h
  rcases remove_dos_device_find_spec udi w.drives_list 0 with
    ⟨_, h2⟩ | ⟨pre, E, post, h1, _, h3, h4⟩
  · rw [remove_dos_device_miss sys udi w h2]
    exact ⟨fun h => by simp at h, ⟨fun _ => h2, fun _ => rfl⟩, fun _ => rfl⟩
  · obtain ⟨r1, r2, _⟩ := remove_dos_device_hit sys udi w pre E post h1 h3 h4
    refine ⟨fun _ => ?_, ⟨fun h => ?_, fun h => ?_⟩, fun h => ?_⟩
    · rw [r2]
      intro d hd hdu
      unfold udi_unique at hu
      rw [h1, List.filterMap_append, List.filterMap_cons, h3] at hu
      simp only at hu
      rw [List.nodup_append] at hu
      obtain ⟨_, hn2, hdis⟩ := hu
      rcases List.mem_append.mp hd with hd | hd
      · exact h4 d hd hdu
      · have hmem : udi ∈ post.filterMap (fun d => d.udi) :=
          List.mem_filterMap.mpr ⟨d, hd, hdu⟩
        exact (List.nodup_cons.mp hn2).1 hmem
    · rw [r1] at h; cases h
    · exact absurd h3 (h E (by rw [h1]; simp))
    · rw [r1] at h; cases h


/-! ## What a returned letter tells about the filesystem -/

theorem ScanInv_step {fs : FS} {dev_st : stat_t} {drive : Int} {n : Nat}
    {avail avail1 : Int} {out : ScanEnd × FS}
    (h : ScanInv fs dev_st (drive + 1) n avail1 out)
    (h0 : resolves_to fs dev_st drive = false)
    (hav : avail1 = avail ∨ (avail1 = drive ∧ (fs.devlink drive).isNone = true)) :
    ScanInv fs dev_st drive (n + 1) avail out := by
  obtain ⟨h1, h2⟩ := h
  refine ⟨h1, ?_⟩
  revert h2
  cases out.1 with
  | done d =>
    simp only
    rintro ⟨a, b, c, e⟩
    refine ⟨by omega, by push_cast; omega, c, ?_⟩
    intro d' hd1 hd2
    by_cases hdd : d' = drive
    · subst hdd; exact h0
    · exact e d' (by omega) hd2
  | finished iu av =>
    simp only
    rintro ⟨a, b, c⟩
    refine ⟨a, ?_, ?_⟩
    · intro d' hd1 hd2
      by_cases hdd : d' = drive
      · subst hdd; exact h0
      · exact b d' (by omega) (by push_cast at hd2; omega)
    · rcases c with c | ⟨c1, c2, c3⟩
      · rcases hav with hav | ⟨hav1, hav2⟩
        · left; omega
        · right
          refine ⟨by omega, by push_cast; omega, ?_⟩
          rw [c, hav1]; exact hav2
      · right; exact ⟨by omega, by push_cast; omega, c3⟩

theorem add_drive_scan_posix_inv (fs : FS) (dev_st : stat_t) (n : Nat) :
    ∀ (drive : Int) (in_use : Int → Bool) (avail : Int),
      (∀ d, in_use d = true → resolves_to fs dev_st d = false) →
      ScanInv fs dev_st drive n avail (add_drive_scan posix dev_st n drive in_use avail fs) := by
  induction n with
  | zero =>
    intro drive in_use avail hinv
    refine ⟨rfl, hinv, ?_, Or.inl rfl⟩
    intro d' h1 h2
    simp only [Nat.cast_zero] at h2
    omega
  | succ n ih =>
    intro drive in_use avail hinv
    rw [add_drive_scan_posix_succ]
    by_cases hin : in_use drive = true
    · simp only [hin, if_true]
      exact ScanInv_step (ih _ _ _ hinv) (hinv drive hin) (Or.inl rfl)
    · rw [if_neg hin]
      by_cases hd : (fs.devlink drive).isNone = true
      · have h0 : resolves_to fs dev_st drive = false := by
          cases h : resolves_to fs dev_st drive with
          | false => rfl
          | true => rw [resolves_to_devlink_isSome h] at hd; cases hd
        rw [if_pos hd]
        by_cases hc : (avail == -1 && (fs.mntlink drive).isNone) = true
        · rw [if_pos hc]
          exact ScanInv_step (ih _ _ _ hinv) h0 (Or.inr ⟨rfl, hd⟩)
        · rw [if_neg hc]
          exact ScanInv_step (ih _ _ _ hinv) h0 (Or.inl rfl)
      · rw [if_neg hd]
        by_cases hr : resolves_to fs dev_st drive = true
        · rw [if_pos hr]
          refine ⟨rfl, le_refl _, by push_cast; omega, hr, ?_⟩
          intro d' h1 h2
          omega
        · have h0 : resolves_to fs dev_st drive = false := by simpa using hr
          rw [if_neg hr]
          refine ScanInv_step (ih _ _ _ ?_) h0 (Or.inl rfl)
          intro d hd'
          by_cases hdd : d = drive
          · subst hdd; exact h0
          · simp only [hdd, if_false] at hd'; exact hinv d hd'

theorem add_drive_loop_posix_inv (fs : FS) (device : String) (dev_st : stat_t)
    (first last : Int) (hfl : first ≤ last) (fuel : Nat) :
    ∀ (in_use : Int → Bool), (∀ d, in_use d = true → resolves_to fs dev_st d = false) →
      ∀ (L : Int) (fs1 : FS),
        add_drive_loop posix device dev_st first last fuel in_use fs = (some L, fs1) →
        L ≠ -1 →
        first ≤ L ∧ L < last ∧
        (∀ d, first ≤ d → d < L → resolves_to fs dev_st d = false) ∧
        ((resolves_to fs dev_st L = true ∧ fs1 = fs) ∨
          ((fs.devlink L).isNone = true ∧
            fs1 = fs.set (Path.dev L) (some (Entry.symlink device)))) := by
  induction fuel with
  | zero => intro in_use _ L fs1 h; simp [add_drive_loop] at h
  | succ fuel ih =>
    intro in_use hinv L fs1 h hL
    have hn : first + ((last - first).toNat : Int) = last := by
      rw [Int.toNat_of_nonneg (by omega)]; omega
    have hscan := add_drive_scan_posix_inv fs dev_st (last - first).toNat first in_use (-1) hinv
    simp only [add_drive_loop] at h
    revert h hscan
    rcases add_drive_scan posix dev_st (last - first).toNat first in_use (-1) fs with ⟨r, s1⟩
    intro h hscan
    obtain ⟨hs, hres⟩ := hscan
    simp only at hs hres
    subst hs
    cases r with
    | done d =>
      simp only [Prod.mk.injEq, Option.some.injEq] at h hres
      obtain ⟨h1, h2⟩ := h
      subst h1 h2
      exact ⟨hres.1, by omega, hres.2.2.2, Or.inl ⟨hres.2.2.1, rfl⟩⟩
    | finished iu av =>
      simp only at h hres
      obtain ⟨hiu, hno, hav⟩ := hres
      by_cases hne : (av != -1) = true
      · simp only [hne, if_true] at h
        have hne' : av ≠ -1 := by simpa using hne
        rcases hav with hav | ⟨a1, a2, a3⟩
        · exact absurd hav hne'
        · have hnone : s1.devlink av = none := by simpa using a3
          by_cases hw : s1.writable = true
          · have hlink : posix.symlink device (Path.dev av) s1
                = (Except.ok (), s1.set (Path.dev av) (some (Entry.symlink device))) := by
              simp [posix, FS.symlink, FS.entry, hnone, hw]
            rw [hlink] at h
            simp only [Prod.mk.injEq, Option.some.injEq] at h
            obtain ⟨h1, h2⟩ := h
            subst h1 h2
            exact ⟨a1, by omega, fun d h1 h2 => hno d h1 (by omega), Or.inr ⟨a3, rfl⟩⟩
          · have hlink : posix.symlink device (Path.dev av) s1
                = (Except.error Errno.EACCES, s1) := by
              simp [posix, FS.symlink, hw]
            rw [hlink] at h
            exact ih iu hiu L fs1 h hL
      · simp only [hne, Bool.false_eq_true, if_false, Prod.mk.injEq, Option.some.injEq] at h
        exact absurd h.1.symm hL

/-- After `add_drive` has returned a letter, the letter is in the range of the
type, its device artifact resolves to the device, and no lower letter of the
range does. -/
theorem add_drive_posix_post (fs fs1 : FS) (fuel : Nat) (device : String) (type : Nat)
    (L : Int) (h : add_drive posix fuel device type fs = (some L, fs1)) (hL : L ≠ -1) :
    ∃ dev_st, fs.unix device = some dev_st ∧ fs1.unix = fs.unix ∧
      fs1.writable = fs.writable ∧
      is_valid_device dev_st = true ∧
      add_drive_first type ≤ L ∧ L < add_drive_last type ∧
      resolves_to fs1 dev_st L = true ∧
      (∀ d, add_drive_first type ≤ d → d < L → resolves_to fs1 dev_st d = false) := by
  have hfl : add_drive_first type ≤ add_drive_last type := by
    unfold add_drive_first add_drive_last; split_ifs <;> omega
  simp only [add_drive] at h
  cases hu : fs.unix device with
  | none =>
    have : posix.stat (Path.unix device) fs = (Except.error Errno.ENOENT, fs) := by
      simp [posix, FS.stat, FS.entry, hu]
    rw [this] at h
    simp only [Prod.mk.injEq, Option.some.injEq] at h
    exact absurd h.1.symm hL
  | some dev_st =>
    have : posix.stat (Path.unix device) fs = (Except.ok dev_st, fs) := by
      simp [posix, FS.stat, FS.entry, hu]
    rw [this] at h
    simp only at h
    by_cases hv : is_valid_device dev_st = true
    · simp only [hv, Bool.not_true, Bool.false_eq_true, if_false] at h
      obtain ⟨h1, h2, h3, h4⟩ := add_drive_loop_posix_inv fs device dev_st _ _ hfl fuel
        (fun _ => false) (by simp) L fs1 h hL
      rcases h4 with ⟨h4, h5⟩ | ⟨h4, h5⟩
      · subst h5
        exact ⟨dev_st, rfl, rfl, rfl, hv, h1, h2, h4, h3⟩
      · subst h5
        refine ⟨dev_st, rfl, rfl, rfl, hv, h1, h2, ?_, ?_⟩
        · simp [resolves_to, FS.stat, FS.entry, FS.set, hu, hv]
        · intro d hd1 hd2
          have hne : d ≠ L := by omega
          rw [← h3 d hd1 hd2]
          simp [resolves_to, FS.stat, FS.entry, FS.set, hne]
    · have hv' : is_valid_device dev_st = false := by simpa using hv
      simp only [hv', Bool.not_false, if_true, Prod.mk.injEq, Option.some.injEq] at h
      exact absurd h.1.symm hL

/-- When the device artifact of `L` resolves to the device and no lower letter
of the range does, `add_drive` returns `L` in the first pass and leaves the
filesystem as it is. -/
theorem add_drive_posix_again (fs : FS) (fuel : Nat) (device : String) (type : Nat)
    (L : Int) (dev_st : stat_t) (hu : fs.unix device = some dev_st)
    (hv : is_valid_device dev_st = true)
    (h1 : add_drive_first type ≤ L) (h2 : L < add_drive_last type)
    (hr : resolves_to fs dev_st L = true)
    (hb : ∀ d, add_drive_first type ≤ d → d < L → resolves_to fs dev_st d = false) :
    add_drive posix (fuel + 1) device type fs = (some L, fs) := by
  have hstat : posix.stat (Path.unix device) fs = (Except.ok dev_st, fs) := by
    simp [posix, FS.stat, FS.entry, hu]
  have hn : add_drive_first type + ((add_drive_last type - add_drive_first type).toNat : Int)
      = add_drive_last type := by
    rw [Int.toNat_of_nonneg (by omega)]; omega
  have hscan := add_drive_scan_posix_match fs dev_st L
    (add_drive_last type - add_drive_first type).toNat (add_drive_first type)
    (fun _ => false) (-1) h1 (by omega) (by simp) hr hb
  simp only [add_drive, hstat, hv, Bool.not_true, Bool.false_eq_true, if_false,
    add_drive_loop, hscan]

/-! ## C4: attaching twice -/

theorem set_drive_letter_fs {σ : Type} (i : Nat) (letter : Int) (w : World σ) :
    (set_drive_letter i letter w).fs = w.fs := by
  cases h : w.drives_list[i]? with
  | none => simp [set_drive_letter, h]
  | some d =>
    obtain ⟨_, _, _, _, _, _, h1⟩ := set_drive_letter_drives i letter w d h
    exact h1

theorem add_dos_device_found_posix_fs (i : Nat) (letter : Int)
    (mount_point : Option String) (type : Nat) (w : World FS) :
    same_dev w.fs (add_dos_device_found posix i letter mount_point type w).fs := by
  have h1 := set_unix_mount_point_posix_fs i mount_point (set_drive_letter i letter w)
  rw [set_drive_letter_fs] at h1
  unfold add_dos_device_found
  simp only
  split
  · exact h1
  · split_ifs <;> exact h1

theorem drive_of_udi_split (udi : String) (pre : List dos_drive) (E : dos_drive)
    (post : List dos_drive) (hpre : ∀ d ∈ pre, d.udi ≠ some udi) (hE : E.udi = some udi) :
    drive_of_udi udi (pre ++ E :: post) = some E := by
  induction pre with
  | nil => simp [drive_of_udi, hE]
  | cons d pre ih =>
    have hd := hpre d (List.mem_cons_self d pre)
    have := ih (fun x hx => hpre x (List.mem_cons_of_mem d hx))
    unfold drive_of_udi at this ⊢
    simp [List.find?_cons, hd, this]

/-- C4: on the interference-free filesystem, for every identifier, device
path, mount point and type: if `add_dos_device` succeeds and is called again
with the same arguments on the state it left, the second call succeeds too
(it returns within any positive fuel), the drive with that identifier holds
the same letter after the second call as after the first, and no drive is
created or destroyed by the second call. -/
theorem add_dos_device_reuse (w w1 : World FS) (fuel : Nat) (udi device : String)
    (mount_point : Option String) (type : Nat)
    (h : add_dos_device posix fuel udi device mount_point type w = (some true, w1)) :
    ∃ L : Int, L ≠ -1 ∧
      (drive_of_udi udi w1.drives_list).map (fun d => d.drive) = some L ∧
      ∀ fuel2,
        (add_dos_device posix (fuel2 + 1) udi device mount_point type w1).1 = some true ∧
        (drive_of_udi udi
          (add_dos_device posix (fuel2 + 1) udi device mount_point type w1).2.drives_list).map
            (fun d => d.drive) = some L ∧
        (add_dos_device posix (fuel2 + 1) udi device mount_point type w1).2.drives_list.map
            (fun d => d.name) = w1.drives_list.map (fun d => d.name) := by
  obtain ⟨L, fs1, pre, E, post, w', hadd, hL, hfs, hw1, hlist, hpre, hEu, hEt, hEd, _⟩ :=
    add_dos_device_success posix fuel udi device mount_point type w w1 h
  obtain ⟨dev_st, hu, hunix, _, hv, hr1, hr2, hres, hbelow⟩ :=
    add_drive_posix_post w.fs fs1 fuel device type L hadd hL
  have hsame : same_dev fs1 w1.fs := by
    rw [hw1, ← hfs]; exact add_dos_device_found_posix_fs _ _ _ _ _
  refine ⟨L, hL, ?_, ?_⟩
  · rw [hlist, drive_of_udi_split udi pre E post (fun d hd => (hpre d hd).1) hEu]
    simp [hEd]
  · intro fuel2
    have hagain : add_drive posix (fuel2 + 1) device type w1.fs = (some L, w1.fs) := by
      apply add_drive_posix_again w1.fs fuel2 device type L dev_st
      · rw [hsame.1, hunix]; exact hu
      · exact hv
      · exact hr1
      · exact hr2
      · rw [resolves_to_same_dev hsame]; exact hres
      · intro d hd1 hd2
        rw [resolves_to_same_dev hsame]; exact hbelow d hd1 hd2
    have hfind : add_dos_device_find udi type L w1.drives_list.length 0 w1
        = (some pre.length, w1) := by
      have := add_dos_device_find_hit udi type L E post hEu hEt pre [] w1.drives_list.length w1
        (by simpa using hlist) (by rw [hlist]; simp) hpre
      simpa using this
    have hsecond : add_dos_device posix (fuel2 + 1) udi device mount_point type w1
        = (some true, add_dos_device_found posix pre.length L mount_point type w1) := by
      simp only [add_dos_device, hagain, hL, if_false]
      rw [show ({ w1 with fs := w1.fs } : World FS) = w1 from rfl, hfind]
    obtain ⟨E', e1, e2, _, e4, e5, _⟩ := add_dos_device_found_drives posix L mount_point type
      w1 pre E post hlist hL
    rw [hsecond]
    refine ⟨rfl, ?_, ?_⟩
    · simp only
      rw [e1, drive_of_udi_split udi pre E' post (fun d hd => (hpre d hd).1) (e2.trans hEu)]
      simp [e5]
    · simp only
      rw [e1, hlist]
      simp [e4]


theorem add_dos_device_reuse_witness :
    ∃ L : Int, L ≠ -1 ∧
      (drive_of_udi "x" one_drive_world.drives_list).map (fun d => d.drive) = some L ∧
      ∀ fuel2,
        (add_dos_device posix (fuel2 + 1) "x" "/dev/sdb1" (some "/mnt/a") DRIVE_FIXED
          one_drive_world).1 = some true ∧
        (drive_of_udi "x"
          (add_dos_device posix (fuel2 + 1) "x" "/dev/sdb1" (some "/mnt/a") DRIVE_FIXED
            one_drive_world).2.drives_list).map (fun d => d.drive) = some L ∧
        (add_dos_device posix (fuel2 + 1) "x" "/dev/sdb1" (some "/mnt/a") DRIVE_FIXED
          one_drive_world).2.drives_list.map (fun d => d.name)
            = one_drive_world.drives_list.map (fun d => d.name) :=
  add_dos_device_reuse (empty_world example_fs) one_drive_world 1 "x" "/dev/sdb1"
    (some "/mnt/a") DRIVE_FIXED (Prod.ext (by decide) rfl)

theorem two_drives_world_reachable : Reachable posix two_drives_world :=
  Reachable.attach one_drive_world 1 "y" "/dev/sdc1" (some "/mnt/b") DRIVE_FIXED true _
    (Reachable.attach (empty_world example_fs) 1 "x" "/dev/sdb1" (some "/mnt/a") DRIVE_FIXED
      true _ (Reachable.empty _ rfl) (Prod.ext (by decide) rfl))
    (Prod.ext (by decide) rfl)

theorem remove_dos_device_removal_witness :
    Reachable posix two_drives_world ∧
    (remove_dos_device posix "x" two_drives_world).1 = true ∧
    (remove_dos_device posix "z" two_drives_world).1 = false ∧
    (((remove_dos_device posix "x" two_drives_world).1 = true →
      ∀ d ∈ (remove_dos_device posix "x" two_drives_world).2.drives_list, d.udi ≠ some "x") ∧
    ((remove_dos_device posix "x" two_drives_world).1 = false ↔
      ∀ d ∈ two_drives_world.drives_list, d.udi ≠ some "x") ∧
    ((remove_dos_device posix "x" two_drives_world).1 = false →
      (remove_dos_device posix "x" two_drives_world).2 = two_drives_world)) :=
  ⟨two_drives_world_reachable, by decide, by decide,
    remove_dos_device_removal posix "x" two_drives_world two_drives_world_reachable⟩

/-! ## C6: the letter of a detached drive -/

/-- A letter returned by `add_drive` either resolved to the device before the
call or had no device artifact. -/
theorem add_drive_posix_pre (fs fs1 : FS) (fuel : Nat) (device : String) (type : Nat)
    (L : Int) (h : add_drive posix fuel device type fs = (some L, fs1)) (hL : L ≠ -1) :
    ∃ dev_st, fs.unix device = some dev_st ∧
      (resolves_to fs dev_st L = true ∨ (fs.devlink L).isNone = true) := by
  have hfl : add_drive_first type ≤ add_drive_last type := by
    unfold add_drive_first add_drive_last; split_ifs <;> omega
  simp only [add_drive] at h
  cases hu : fs.unix device with
  | none =>
    have : posix.stat (Path.unix device) fs = (Except.error Errno.ENOENT, fs) := by
      simp [posix, FS.stat, FS.entry, hu]
    rw [this] at h
    simp only [Prod.mk.injEq, Option.some.injEq] at h
    exact absurd h.1.symm hL
  | some dev_st =>
    have : posix.stat (Path.unix device) fs = (Except.ok dev_st, fs) := by
      simp [posix, FS.stat, FS.entry, hu]
    rw [this] at h
    simp only at h
    by_cases hv : is_valid_device dev_st = true
    · simp only [hv, Bool.not_true, Bool.false_eq_true, if_false] at h
      obtain ⟨_, _, _, h4⟩ := add_drive_loop_posix_inv fs device dev_st _ _ hfl fuel
        (fun _ => false) (by simp) L fs1 h hL
      rcases h4 with ⟨h4, _⟩ | ⟨h4, _⟩
      · exact ⟨dev_st, rfl, Or.inl h4⟩
      · exact ⟨dev_st, rfl, Or.inr h4⟩
    · have hv' : is_valid_device dev_st = false := by simpa using hv
      simp only [hv', Bool.not_false, if_true, Prod.mk.injEq, Option.some.injEq] at h
      exact absurd h.1.symm hL

theorem resolves_to_same_rdev {fs : FS} {st1 st2 : stat_t} {d : Int}
    (h1 : resolves_to fs st1 d = true) (h2 : resolves_to fs st2 d = true) :
    st1.st_rdev = st2.st_rdev := by
  unfold resolves_to at h1 h2
  cases hs : fs.stat (Path.dev d) with
  | error e => rw [hs] at h1; simp at h1
  | ok st =>
    rw [hs] at h1 h2
    simp only [Bool.and_eq_true, beq_iff_eq] at h1 h2
    exact h1.2.trans h2.2.symm

theorem remove_dos_device_posix_fs (udi : String) (w : World FS) :
    same_dev w.fs (remove_dos_device posix udi w).2.fs := by
  rcases remove_dos_device_find_spec udi w.drives_list 0 with
    ⟨_, h2⟩ | ⟨pre, E, post, h1, _, h3, h4⟩
  · rw [remove_dos_device_miss posix udi w h2]; exact same_dev_refl _
  · rw [(remove_dos_device_hit posix udi w pre E post h1 h3 h4).2.2]
    split_ifs
    · exact set_unix_mount_point_posix_fs _ _ _
    · exact same_dev_refl _

/-- C6 (as stated, refuted): "x" is attached on /dev/sdb1 with letter 2 and
then detached successfully, which leaves no drive.  A following `add_drive`
for the different device /dev/sdc1 of type fixed, whose range starts at 2,
finds the device artifact of letter 2 still in place, marks letter 2 as used
and returns 3. -/
theorem detached_letter_not_released :
    (drive_of_udi "x" one_drive_world.drives_list).map (fun d => d.drive) = some 2 ∧
    (remove_dos_device posix "x" one_drive_world).1 = true ∧
    detached_world.drives_list = [] ∧
    detached_world.fs.devlink 2 = some (Entry.symlink "/dev/sdb1") ∧
    add_drive_first DRIVE_FIXED = 2 ∧
    (add_drive_scan posix ⟨FileKind.blk, 2081⟩ 24 2 (fun _ => false) (-1)
      detached_world.fs).1.marks 2 = true ∧
    (add_drive posix 1 "/dev/sdc1" DRIVE_FIXED detached_world.fs).1 = some 3 := by
  refine ⟨by decide, by decide, by decide, by decide, by decide, by decide, by decide⟩

theorem unlink_mnt_other (fs : FS) (L d : Int) (hd : d ≠ L) :
    (fs.unlink (Path.mnt L)).2.mntlink d = fs.mntlink d := by
  unfold FS.unlink
  simp only
  cases fs.entry (Path.mnt L) with
  | none => rfl
  | some e =>
    simp only
    cases fs.writable with
    | false => rfl
    | true =>
      simp only [Bool.not_true, Bool.false_eq_true, if_false]
      split
      · rfl
      · simp [FS.set, hd]

theorem set_unix_mount_point_none_fs (i : Nat) (w : World FS) (E : dos_drive)
    (hE : w.drives_list[i]? = some E) :
    (set_unix_mount_point posix i none w).2.fs = (w.fs.unlink (Path.mnt E.drive)).2 := by
  simp only [set_unix_mount_point, hE, Option.filter]
  rw [(set_drive_mount_ids_drives _ _ _).2]
  rfl

/-- A letter that is marked stays marked to the end of the pass. -/
theorem add_drive_scan_posix_marks_keep (fs : FS) (dev_st : stat_t) (L : Int) (n : Nat) :
    ∀ (drive : Int) (in_use : Int → Bool) (avail : Int), in_use L = true →
      (add_drive_scan posix dev_st n drive in_use avail fs).1.marks L = true ∨
      ∃ d, (add_drive_scan posix dev_st n drive in_use avail fs).1 = ScanEnd.done d := by
  induction n with
  | zero => intro drive in_use avail h; exact Or.inl h
  | succ n ih =>
    intro drive in_use avail h
    rw [add_drive_scan_posix_succ]
    split_ifs
    · exact ih _ _ _ h
    · exact ih _ _ _ h
    · exact ih _ _ _ h
    · exact Or.inr ⟨drive, rfl⟩
    · exact ih _ _ _ (by simp [h])

/-- A pass that reaches a letter whose device artifact exists and does not
resolve to the device marks the letter, unless it stops at a match. -/
theorem add_drive_scan_posix_marks (fs : FS) (dev_st : stat_t) (L : Int)
    (hsome : (fs.devlink L).isNone = false) (hres : resolves_to fs dev_st L = false)
    (n : Nat) :
    ∀ (drive : Int) (in_use : Int → Bool) (avail : Int), drive ≤ L → L < drive + n →
      (add_drive_scan posix dev_st n drive in_use avail fs).1.marks L = true ∨
      ∃ d, (add_drive_scan posix dev_st n drive in_use avail fs).1 = ScanEnd.done d := by
  induction n with
  | zero => intro drive in_use avail h1 h2; simp only [Nat.cast_zero] at h2; omega
  | succ n ih =>
    intro drive in_use avail h1 h2
    push_cast at h2
    rw [add_drive_scan_posix_succ]
    by_cases hL : drive = L
    · subst hL
      by_cases hin : in_use drive = true
      · rw [if_pos hin]
        exact add_drive_scan_posix_marks_keep fs dev_st drive n _ _ _ hin
      · rw [if_neg hin, hsome, hres]
        simp only [Bool.false_eq_true, if_false]
        exact add_drive_scan_posix_marks_keep fs dev_st drive n _ _ _ (by simp)
    · split_ifs
      · exact ih _ _ _ (by omega) (by omega)
      · exact ih _ _ _ (by omega) (by omega)
      · exact ih _ _ _ (by omega) (by omega)
      · exact Or.inr ⟨drive, rfl⟩
      · exact ih _ _ _ (by omega) (by omega)

/-- C6 (amended): on the interference-free filesystem, for every drive that
was attached (device D, type T) with letter `L` and then successfully
detached: the detach changes nothing in the filesystem except possibly the
mount artifact of `L`; the device artifact of `L` survives and still resolves
to D.  So `L` does not become allocatable again: `add_drive` for D with the
same type T returns `L` again; `add_drive` for a different valid device
(another device number), whatever its type, never returns `L`; and when the
type of that device scans the range containing `L`, its first pass either
stops at a letter that resolves to that device or marks `L` as used. -/
theorem detached_letter_stays_reserved (w w1 w2 : World FS) (fuel : Nat)
    (udi device : String) (mount_point : Option String) (type : Nat)
    (h : add_dos_device posix fuel udi device mount_point type w = (some true, w1))
    (hd : remove_dos_device posix udi w1 = (true, w2)) :
    ∃ (L : Int) (dev_st : stat_t),
      (drive_of_udi udi w1.drives_list).map (fun d => d.drive) = some L ∧
      w.fs.unix device = some dev_st ∧
      (same_dev w1.fs w2.fs ∧ ∀ d, d ≠ L → w2.fs.mntlink d = w1.fs.mntlink d) ∧
      ((w2.fs.devlink L).isSome = true ∧ resolves_to w2.fs dev_st L = true) ∧
      (∀ fuel1, add_drive posix (fuel1 + 1) device type w2.fs = (some L, w2.fs)) ∧
      (∀ (device1 : String) (dev_st1 : stat_t) (type1 fuel1 : Nat) (r : Int),
        w2.fs.unix device1 = some dev_st1 →
        dev_st1.st_rdev ≠ dev_st.st_rdev →
        (add_drive posix fuel1 device1 type1 w2.fs).1 = some r →
        r ≠ L) ∧
      (∀ (device1 : String) (dev_st1 : stat_t) (type1 : Nat),
        w2.fs.unix device1 = some dev_st1 →
        dev_st1.st_rdev ≠ dev_st.st_rdev →
        add_drive_first type1 ≤ L → L < add_drive_last type1 →
        (add_drive_scan posix dev_st1 (add_drive_last type1 - add_drive_first type1).toNat
            (add_drive_first type1) (fun _ => false) (-1) w2.fs).1.marks L = true ∨
        ∃ d, (add_drive_scan posix dev_st1
            (add_drive_last type1 - add_drive_first type1).toNat
            (add_drive_first type1) (fun _ => false) (-1) w2.fs).1 = ScanEnd.done d) := by
  have hw2 : w2 = (remove_dos_device posix udi w1).2 := by rw [hd]
  subst hw2
  obtain ⟨L, fs1, pre, E, post, w', hadd, hL, hfs, hw1, hlist, hpre, hEu, _, hEd, _⟩ :=
    add_dos_device_success posix fuel udi device mount_point type w w1 h
  obtain ⟨dev_st, hu, hunix, _, hv, hr1, hr2, hres, hbelow⟩ :=
    add_drive_posix_post w.fs fs1 fuel device type L hadd hL
  have hsame1 : same_dev fs1 w1.fs := by
    rw [hw1, ← hfs]; exact add_dos_device_found_posix_fs _ _ _ _ _
  have hsame : same_dev fs1 (remove_dos_device posix udi w1).2.fs :=
    same_dev_trans hsame1 (remove_dos_device_posix_fs udi w1)
  have hres2 : resolves_to (remove_dos_device posix udi w1).2.fs dev_st L = true := by
    rw [resolves_to_same_dev hsame]; exact hres
  have hget : w1.drives_list[pre.length]? = some E := by
    rw [hlist]; exact getElem?_append_cons_length pre E post
  have hfs2 : (remove_dos_device posix udi w1).2.fs = (w1.fs.unlink (Path.mnt L)).2 := by
    rw [(remove_dos_device_hit posix udi w1 pre E post hlist hEu
      (fun d hd => (hpre d hd).1)).2.2]
    have hne : (E.drive != -1) = true := by
      simp only [bne_iff_ne, ne_eq, hEd]; exact hL
    rw [if_pos hne, set_unix_mount_point_none_fs pre.length w1 E hget, hEd]
  refine ⟨L, dev_st, ?_, hu, ⟨remove_dos_device_posix_fs udi w1, ?_⟩,
    ⟨?_, hres2⟩, ?_, ?_, ?_⟩
  · rw [hlist, drive_of_udi_split udi pre E post (fun d hd => (hpre d hd).1) hEu]
    simp [hEd]
  · intro d hdL
    rw [hfs2]
    exact unlink_mnt_other w1.fs L d hdL
  · have := resolves_to_devlink_isSome hres2
    cases hx : (remove_dos_device posix udi w1).2.fs.devlink L with
    | none => rw [hx] at this; simp at this
    | some e => rfl
  · intro fuel1
    apply add_drive_posix_again _ fuel1 device type L dev_st
    · rw [hsame.1, hunix]; exact hu
    · exact hv
    · exact hr1
    · exact hr2
    · exact hres2
    · intro d hd1 hd2
      rw [resolves_to_same_dev hsame]; exact hbelow d hd1 hd2
  · intro device1 dev_st1 type1 fuel1 r hu1 hne hr hrl
    subst hrl
    have hpair : add_drive posix fuel1 device1 type1 (remove_dos_device posix udi w1).2.fs
        = (some r, (add_drive posix fuel1 device1 type1
            (remove_dos_device posix udi w1).2.fs).2) := Prod.ext hr rfl
    obtain ⟨st, hst, hor⟩ := add_drive_posix_pre _ _ fuel1 device1 type1 r hpair hL
    rw [hu1] at hst
    cases hst
    rcases hor with hor | hor
    · exact hne (resolves_to_same_rdev hor hres2)
    · rw [resolves_to_devlink_isSome hres2] at hor; cases hor
  · intro device1 dev_st1 type1 _ hne h1 h2
    have hno : resolves_to (remove_dos_device posix udi w1).2.fs dev_st1 L = false := by
      cases hx : resolves_to (remove_dos_device posix udi w1).2.fs dev_st1 L with
      | false => rfl
      | true => exact absurd (resolves_to_same_rdev hx hres2) hne
    have hn : add_drive_first type1
        + ((add_drive_last type1 - add_drive_first type1).toNat : Int)
        = add_drive_last type1 := by
      rw [Int.toNat_of_nonneg (by omega)]; omega
    exact add_drive_scan_posix_marks _ dev_st1 L (resolves_to_devlink_isSome hres2) hno _ _ _ _
      h1 (by omega)

theorem detached_letter_stays_reserved_witness :
    ∃ (L : Int) (dev_st : stat_t),
      (drive_of_udi "x" one_drive_world.drives_list).map (fun d => d.drive) = some L ∧
      (empty_world example_fs).fs.unix "/dev/sdb1" = some dev_st ∧
      (same_dev one_drive_world.fs detached_world.fs ∧
        ∀ d, d ≠ L → detached_world.fs.mntlink d = one_drive_world.fs.mntlink d) ∧
      ((detached_world.fs.devlink L).isSome = true ∧
        resolves_to detached_world.fs dev_st L = true) ∧
      (∀ fuel1, add_drive posix (fuel1 + 1) "/dev/sdb1" DRIVE_FIXED detached_world.fs
        = (some L, detached_world.fs)) ∧
      (∀ (device1 : String) (dev_st1 : stat_t) (type1 fuel1 : Nat) (r : Int),
        detached_world.fs.unix device1 = some dev_st1 →
        dev_st1.st_rdev ≠ dev_st.st_rdev →
        (add_drive posix fuel1 device1 type1 detached_world.fs).1 = some r →
        r ≠ L) ∧
      (∀ (device1 : String) (dev_st1 : stat_t) (type1 : Nat),
        detached_world.fs.unix device1 = some dev_st1 →
        dev_st1.st_rdev ≠ dev_st.st_rdev →
        add_drive_first type1 ≤ L → L < add_drive_last type1 →
        (add_drive_scan posix dev_st1 (add_drive_last type1 - add_drive_first type1).toNat
            (add_drive_first type1) (fun _ => false) (-1) detached_world.fs).1.marks L = true ∨
        ∃ d, (add_drive_scan posix dev_st1
            (add_drive_last type1 - add_drive_first type1).toNat
            (add_drive_first type1) (fun _ => false) (-1) detached_world.fs).1
              = ScanEnd.done d) :=
  detached_letter_stays_reserved (empty_world example_fs) one_drive_world detached_world 1
    "x" "/dev/sdb1" (some "/mnt/a") DRIVE_FIXED (Prod.ext (by decide) rfl)
    (Prod.ext (by decide) rfl)

/-- The detached letter on the example, evaluated: after the detach of "x"
(letter 2, /dev/sdb1) the mount artifact of letter 2 is gone and its device
artifact is in place; /dev/sdb1 gets 2 again as a fixed drive and 0 as a
removable one; /dev/sdc1 gets 3 as a fixed drive, its pass marking letter 2;
a removable pass over 0..1 does not visit letter 2. -/
theorem detached_letter_example :
    one_drive_world.fs.mntlink 2 = some (Entry.symlink "/mnt/a") ∧
    detached_world.fs.mntlink 2 = none ∧
    detached_world.fs.devlink 2 = some (Entry.symlink "/dev/sdb1") ∧
    (add_drive posix 1 "/dev/sdb1" DRIVE_FIXED detached_world.fs).1 = some 2 ∧
    (add_drive posix 1 "/dev/sdb1" DRIVE_REMOVABLE detached_world.fs).1 = some 0 ∧
    (add_drive posix 1 "/dev/sdc1" DRIVE_FIXED detached_world.fs).1 = some 3 ∧
    (add_drive_scan posix ⟨FileKind.blk, 2081⟩ 24 2 (fun _ => false) (-1)
      detached_world.fs).1.marks 2 = true ∧
    (add_drive_scan posix ⟨FileKind.blk, 2081⟩ 2 0 (fun _ => false) (-1)
      detached_world.fs).1.marks 2 = false := by
  refine ⟨by decide, by decide, by decide, by decide, by decide, by decide, by decide,
    by decide⟩

/-! ## C7: geometry query -/

/-- C7 (as stated, refuted): a drive created with type removable answers the
geometry request with media type FixedMedia, not RemovableMedia. -/
theorem geometry_removable_reports_fixed :
    ∃ d : dos_drive,
      (create_disk_device none DRIVE_REMOVABLE (empty_world example_fs)).1 = STATUS_SUCCESS ∧
      (create_disk_device none DRIVE_REMOVABLE (empty_world example_fs)).2.2.drives_list[0]?
        = some d ∧
      d.type = DRIVE_REMOVABLE ∧
      harddisk_ioctl d IOCTL_DISK_GET_DRIVE_GEOMETRY 24
        = ⟨STATUS_SUCCESS, some 24,
            some (IoctlData.geometry ⟨10000, FixedMedia, 255, 63, 512⟩)⟩ ∧
      FixedMedia ≠ RemovableMedia :=
  ⟨_, by decide, rfl, by decide, by decide, by decide⟩

theorem create_disk_device_new_drive {σ : Type} (w : World σ) (udi : Option String)
    (type : Nat) (d : dos_drive)
    (hs : (create_disk_device udi type w).1 = STATUS_SUCCESS)
    (hd : (create_disk_device udi type w).2.2.drives_list[(create_disk_device udi type w).2.1]?
      = some d) :
    ∃ i, d = { udi := udi, drive := -1, type := type,
               name := ⟨(create_disk_device_format udi type).1, i⟩,
               devnum := create_disk_device_devnum udi type i,
               dosdev := none, volume := none, unix_mount := none } := by
  simp only [create_disk_device] at hs hd
  revert hs hd
  generalize create_disk_device_probe (create_disk_device_format udi type).1
    (32 - (create_disk_device_format udi type).2) (create_disk_device_format udi type).2 0 w
    = r
  obtain ⟨status, i, w1⟩ := r
  by_cases h0 : status = 0
  · simp only [h0, if_true]
    intro _ hd
    refine ⟨i, ?_⟩
    simpa using hd.symm
  · simp only [h0, if_false]
    intro hs
    exact absurd hs h0

/-- C7 (amended): for every drive created by `create_disk_device` and every
output buffer length, the geometry request succeeds, reports
min(24, length) bytes copied from a record with Cylinders 10000,
TracksPerCylinder 255, SectorsPerTrack 63, BytesPerSector 512, and the media
type follows the device class: RemovableMedia when the type is cdrom,
FixedMedia for every other type, removable included. -/
theorem geometry_of_created_drive {σ : Type} (w : World σ) (udi : Option String)
    (type : Nat) (OutputBufferLength : Nat) (d : dos_drive)
    (hs : (create_disk_device udi type w).1 = STATUS_SUCCESS)
    (hd : (create_disk_device udi type w).2.2.drives_list[(create_disk_device udi type w).2.1]?
      = some d) :
    harddisk_ioctl d IOCTL_DISK_GET_DRIVE_GEOMETRY OutputBufferLength
      = ⟨STATUS_SUCCESS, some (min 24 OutputBufferLength),
          some (IoctlData.geometry
            ⟨10000, if type = DRIVE_CDROM then RemovableMedia else FixedMedia,
              255, 63, 512⟩)⟩ := by
  obtain ⟨i, rfl⟩ := create_disk_device_new_drive w udi type d hs hd
  unfold harddisk_ioctl create_disk_device_devnum
  by_cases h1 : type = DRIVE_REMOVABLE
  · subst h1; simp [sizeof_DISK_GEOMETRY, DRIVE_REMOVABLE, DRIVE_CDROM]
  · by_cases h2 : type = DRIVE_CDROM
    · subst h2
      simp [sizeof_DISK_GEOMETRY, DRIVE_REMOVABLE, DRIVE_CDROM, FILE_DEVICE_CD_ROM,
        FILE_DEVICE_DISK]
    · cases udi <;> simp [h1, h2, sizeof_DISK_GEOMETRY]

theorem geometry_of_created_drive_witness :
    harddisk_ioctl
        { udi := none, drive := -1, type := DRIVE_CDROM, name := ⟨NameFormat.cdromW, 0⟩,
          devnum := ⟨FILE_DEVICE_CD_ROM, 0, 4294967295⟩, dosdev := none, volume := none,
          unix_mount := none }
        IOCTL_DISK_GET_DRIVE_GEOMETRY 8
      = ⟨STATUS_SUCCESS, some (min 24 8),
          some (IoctlData.geometry
            ⟨10000, if DRIVE_CDROM = DRIVE_CDROM then RemovableMedia else FixedMedia,
              255, 63, 512⟩)⟩ :=
  geometry_of_created_drive (empty_world example_fs) none DRIVE_CDROM 8 _
    (by decide) (by decide)

/-! ## C8: mount-point pointers across set_drive_letter -/

/-- The sequence 2, 2, 5, 3 on a fresh drive, evaluated: the drive ends with
letter 3 and the pointers 4 and 5, both live; the pointers 0, 1, 2, 3 were
deleted once each. -/
theorem set_drive_letters_example :
    (set_drive_letters 0 [2, 2, 5, 3]
      (create_disk_device (some "x") DRIVE_FIXED (empty_world example_fs)).2.2).drives_list.map
        (fun d => (d.drive, d.dosdev, d.volume)) = [(3, some 4, some 5)] ∧
    (set_drive_letters 0 [2, 2, 5, 3]
      (create_disk_device (some "x") DRIVE_FIXED (empty_world example_fs)).2.2).deleted_mounts
        = [3, 2, 1, 0] ∧
    (set_drive_letters 0 [2, 2, 5, 3]
      (create_disk_device (some "x") DRIVE_FIXED (empty_world example_fs)).2.2).mount_points.map
        (fun m => m.handle) = [5, 4] := by
  refine ⟨by decide, by decide, by decide⟩

/-! ## C9: unit probing in create_disk_device -/

/-- C9 (as stated, refuted): with no identifier and type fixed the probing
starts at unit 1; when HarddiskVolume1 .. HarddiskVolume31 are bound and
HarddiskVolume32 is free, the 32 names from the start value are not all
bound, yet `create_disk_device` fails: it made 31 attempts, not 32. -/
theorem create_disk_device_volume_window_is_31 :
    (create_disk_device_format none DRIVE_FIXED).2 = 1 ∧
    (∀ k, k < 31 → (⟨NameFormat.harddiskvolW, 1 + k⟩ : DeviceName) ∈ volumes_bound_world.devices) ∧
    (⟨NameFormat.harddiskvolW, 32⟩ : DeviceName) ∉ volumes_bound_world.devices ∧
    ¬ (∀ k, k < 32 → (⟨NameFormat.harddiskvolW, 1 + k⟩ : DeviceName) ∈ volumes_bound_world.devices) ∧
    (create_disk_device none DRIVE_FIXED volumes_bound_world).1 = STATUS_OBJECT_NAME_COLLISION ∧
    (create_disk_device none DRIVE_FIXED volumes_bound_world).2.2.drives_list = [] := by
  refine ⟨by decide, by decide, by decide, by decide, by decide, by decide⟩

/-- C9 (amended): `create_disk_device` probes unit numbers in ascending order
from the template's start value (1 when there is no identifier and the type
is neither removable nor cdrom, else 0) while the unit number is below 32,
that is 32 attempts from 0 and 31 attempts from 1.  It succeeds with the
least unit number of that window whose name is not bound, binds the name and
registers the new drive at the tail of the registry with letter -1; it fails
with the state unchanged exactly when every name of the window is bound. -/
theorem create_disk_device_unit_probing {σ : Type} (w : World σ) (udi : Option String)
    (type : Nat) :
    (create_disk_device_format udi type).2
      = (if udi = none ∧ type ≠ DRIVE_REMOVABLE ∧ type ≠ DRIVE_CDROM then 1 else 0) ∧
    ((∃ i, (create_disk_device_format udi type).2 ≤ i ∧ i < 32 ∧
        (⟨(create_disk_device_format udi type).1, i⟩ : DeviceName) ∉ w.devices ∧
        (∀ j, (create_disk_device_format udi type).2 ≤ j → j < i →
          (⟨(create_disk_device_format udi type).1, j⟩ : DeviceName) ∈ w.devices) ∧
        create_disk_device udi type w
          = (STATUS_SUCCESS, w.drives_list.length,
              { w with
                devices := ⟨(create_disk_device_format udi type).1, i⟩ :: w.devices
                drives_list := w.drives_list ++
                  [{ udi := udi, drive := -1, type := type,
                     name := ⟨(create_disk_device_format udi type).1, i⟩,
                     devnum := create_disk_device_devnum udi type i,
                     dosdev := none, volume := none, unix_mount := none }] })) ∨
     ((∀ j, (create_disk_device_format udi type).2 ≤ j → j < 32 →
          (⟨(create_disk_device_format udi type).1, j⟩ : DeviceName) ∈ w.devices) ∧
        (create_disk_device udi type w).1 = STATUS_OBJECT_NAME_COLLISION ∧
        (create_disk_device udi type w).2.2 = w)) ∧
    ((create_disk_device udi type w).1 ≠ STATUS_SUCCESS ↔
      ∀ j, (create_disk_device_format udi type).2 ≤ j → j < 32 →
        (⟨(create_disk_device_format udi type).1, j⟩ : DeviceName) ∈ w.devices) := by
  have hcases := create_disk_device_cases w udi type
  refine ⟨?_, hcases, ?_⟩
  · unfold create_disk_device_format
    cases udi <;> split_ifs <;> simp_all
  · rcases hcases with ⟨i, h1, h2, hfree, _, heq⟩ | ⟨hall, hfail, _⟩
    · constructor
      · intro hne
        rw [heq] at hne
        exact absurd rfl hne
      · intro hall
        exact absurd (hall i h1 h2) hfree
    · constructor
      · intro _
        exact hall
      · intro _
        rw [hfail]
        decide

/-! ## C10: termination of the retry loop of add_drive -/

theorem add_drive_loop_readonly (fuel : Nat) :
    add_drive_loop posix "/dev/sdb1" ⟨FileKind.blk, 2065⟩ 2 26 fuel (fun _ => false)
      example_fs_readonly = (none, example_fs_readonly) := by
  induction fuel with
  | zero => rfl
  | succ fuel ih =>
    have hscan : add_drive_scan posix ⟨FileKind.blk, 2065⟩ ((26 : Int) - 2).toNat 2
        (fun _ => false) (-1) example_fs_readonly
        = (ScanEnd.finished (fun _ => false) 2, example_fs_readonly) := by rfl
    have hlink : posix.symlink "/dev/sdb1" (Path.dev 2) example_fs_readonly
        = (Except.error Errno.EACCES, example_fs_readonly) := by rfl
    simp only [add_drive_loop, hscan, hlink]
    simpa using ih

/-- C10: failing input for bounded retry.  The `dosdevices` directory is empty
and refuses changes and /dev/sdb1 is a block device.  Every pass finds letter
2 available (no mark is made, no letter resolves to the device), the
`symlink` call fails with EACCES, and the loop starts over in the same state:
`add_drive` returns within no amount of fuel. -/
theorem add_drive_readonly_never_returns :
    add_drive_scan posix ⟨FileKind.blk, 2065⟩ 24 2 (fun _ => false) (-1) example_fs_readonly
      = (ScanEnd.finished (fun _ => false) 2, example_fs_readonly) ∧
    posix.symlink "/dev/sdb1" (Path.dev 2) example_fs_readonly
      = (Except.error Errno.EACCES, example_fs_readonly) ∧
    ∀ fuel, add_drive posix fuel "/dev/sdb1" DRIVE_FIXED example_fs_readonly
      = (none, example_fs_readonly) := by
  refine ⟨rfl, rfl, fun fuel => ?_⟩
  have hstat : posix.stat (Path.unix "/dev/sdb1") example_fs_readonly
      = (Except.ok ⟨FileKind.blk, 2065⟩, example_fs_readonly) := by rfl
  have h1 : add_drive_first DRIVE_FIXED = 2 := by decide
  have h2 : add_drive_last DRIVE_FIXED = 26 := by decide
  simp only [add_drive, hstat, h1, h2]
  simpa [is_valid_device] using add_drive_loop_readonly fuel

/-! ## C11: set_unix_mount_point called twice -/

/-- A call with a non-empty path stores the path in the drive. -/
theorem set_unix_mount_point_stores {σ : Type} (sys : Sys σ) (i : Nat) (mp : String)
    (w : World σ) (d : dos_drive) (hd : w.drives_list[i]? = some d) (hmp : mp ≠ "") :
    (set_unix_mount_point sys i (some mp) w).2.drives_list[i]?
      = some { d with unix_mount := some mp } := by
  obtain ⟨pre, post, hw, hi⟩ := split_at_getElem? _ _ _ hd
  subst hi
  have hfilter : (some mp).filter (fun mp => mp != "") = some mp := by
    simp [Option.filter, hmp]
  have h1 : (set_unix_mount_point sys pre.length (some mp) w).2.drives_list
      = pre ++ { d with unix_mount := some mp } :: post := by
    simp only [set_unix_mount_point, hd, hfilter]
    rw [(set_drive_mount_ids_drives _ _ _).1]
    simp only [hw, set_append_cons_length]
  rw [h1]; exact getElem?_append_cons_length _ _ _

/-- A call with the path the drive already stores reports no modification and
leaves the filesystem state and the registry as they are. -/
theorem set_unix_mount_point_same {σ : Type} (sys : Sys σ) (i : Nat) (mp : String)
    (w : World σ) (d : dos_drive) (hd : w.drives_list[i]? = some d)
    (hu : d.unix_mount = some mp) (hmp : mp ≠ "") :
    (set_unix_mount_point sys i (some mp) w).1 = false ∧
    (set_unix_mount_point sys i (some mp) w).2.fs = w.fs ∧
    (set_unix_mount_point sys i (some mp) w).2.drives_list = w.drives_list := by
  obtain ⟨pre, post, hw, hi⟩ := split_at_getElem? _ _ _ hd
  subst hi
  have hfilter : (some mp).filter (fun mp => mp != "") = some mp := by
    simp [Option.filter, hmp]
  have hsame : ({ d with unix_mount := some mp } : dos_drive) = d := by
    cases d; simp only at hu; simp [hu]
  refine ⟨?_, ?_, ?_⟩
  · simp only [set_unix_mount_point, hd, hfilter]
    simp [hu]
  · simp only [set_unix_mount_point, hd, hfilter]
    rw [(set_drive_mount_ids_drives _ _ _).2]
    simp [hu]
  · simp only [set_unix_mount_point, hd, hfilter]
    rw [(set_drive_mount_ids_drives _ _ _).1]
    simp only [hsame, hw, set_append_cons_length]

/-- C11: for every drive of the registry, lettered or not, and every non-empty
path: after one call `set_unix_mount_point(drive, path)`, a second call with
the same path returns FALSE, leaves the filesystem state untouched, makes no
system call at all (the record of calls of the recording system is the same
before and after, so no `unlink` and no `symlink`), and the drive's stored
Unix mount path is that path. -/
theorem set_unix_mount_point_idempotent {σ : Type} (sys : Sys σ) (i : Nat) (mp : String)
    (w : World σ) (log : List Call) (d : dos_drive)
    (hd : w.drives_list[i]? = some d) (hmp : mp ≠ "") :
    (set_unix_mount_point sys i (some mp)
      (set_unix_mount_point sys i (some mp) w).2).1 = false ∧
    (set_unix_mount_point sys i (some mp)
      (set_unix_mount_point sys i (some mp) w).2).2.fs
      = (set_unix_mount_point sys i (some mp) w).2.fs ∧
    ((set_unix_mount_point sys i (some mp)
      (set_unix_mount_point sys i (some mp) w).2).2.drives_list[i]?).map
        (fun x => x.unix_mount) = some (some mp) ∧
    (set_unix_mount_point sys.traced i (some mp)
      (set_unix_mount_point sys.traced i (some mp) (w.traced log)).2).1 = false ∧
    (set_unix_mount_point sys.traced i (some mp)
      (set_unix_mount_point sys.traced i (some mp) (w.traced log)).2).2.fs.2
      = (set_unix_mount_point sys.traced i (some mp) (w.traced log)).2.fs.2 ∧
    ((set_unix_mount_point sys.traced i (some mp)
      (set_unix_mount_point sys.traced i (some mp) (w.traced log)).2).2.drives_list[i]?).map
        (fun x => x.unix_mount) = some (some mp) := by
  have a1 := set_unix_mount_point_stores sys i mp w d hd hmp
  obtain ⟨a2, a3, a4⟩ := set_unix_mount_point_same sys i mp
    (set_unix_mount_point sys i (some mp) w).2 _ a1 rfl hmp
  have hdt : (w.traced log).drives_list[i]? = some d := hd
  have b1 := set_unix_mount_point_stores sys.traced i mp (w.traced log) d hdt hmp
  obtain ⟨b2, b3, b4⟩ := set_unix_mount_point_same sys.traced i mp
    (set_unix_mount_point sys.traced i (some mp) (w.traced log)).2 _ b1 rfl hmp
  refine ⟨a2, a3, ?_, b2, ?_, ?_⟩
  · rw [a4, a1]; rfl
  · rw [b3]
  · rw [b4, b1]; rfl

theorem set_unix_mount_point_idempotent_witness :
    (set_unix_mount_point posix 0 (some "/mnt/a")
      (set_unix_mount_point posix 0 (some "/mnt/a") lettered_world).2).1 = false ∧
    (set_unix_mount_point posix 0 (some "/mnt/a")
      (set_unix_mount_point posix 0 (some "/mnt/a") lettered_world).2).2.fs
      = (set_unix_mount_point posix 0 (some "/mnt/a") lettered_world).2.fs ∧
    ((set_unix_mount_point posix 0 (some "/mnt/a")
      (set_unix_mount_point posix 0 (some "/mnt/a") lettered_world).2).2.drives_list[0]?).map
        (fun x => x.unix_mount) = some (some "/mnt/a") ∧
    (set_unix_mount_point posix.traced 0 (some "/mnt/a")
      (set_unix_mount_point posix.traced 0 (some "/mnt/a") (lettered_world.traced [])).2).1
        = false ∧
    (set_unix_mount_point posix.traced 0 (some "/mnt/a")
      (set_unix_mount_point posix.traced 0 (some "/mnt/a") (lettered_world.traced [])).2).2.fs.2
      = (set_unix_mount_point posix.traced 0 (some "/mnt/a") (lettered_world.traced [])).2.fs.2 ∧
    ((set_unix_mount_point posix.traced 0 (some "/mnt/a")
      (set_unix_mount_point posix.traced 0 (some "/mnt/a")
        (lettered_world.traced [])).2).2.drives_list[0]?).map
        (fun x => x.unix_mount) = some (some "/mnt/a") :=
  set_unix_mount_point_idempotent posix 0 "/mnt/a" lettered_world []
    { udi := some "x", drive := 2, type := DRIVE_FIXED, name := ⟨NameFormat.harddiskW, 0⟩,
      devnum := ⟨FILE_DEVICE_DISK, 0, 0⟩, dosdev := some 0, volume := some 1,
      unix_mount := none }
    (by decide) (by decide)

/-- The calls recorded for the two calls on the lettered drive: the first
makes one `unlink` and one `symlink` of the mount artifact of letter 2, the
second adds none. -/
theorem set_unix_mount_point_calls :
    (set_unix_mount_point posix.traced 0 (some "/mnt/a") (lettered_world.traced [])).2.fs.2
      = [Call.symlink "/mnt/a" (Path.mnt 2), Call.unlink (Path.mnt 2)] ∧
    (set_unix_mount_point posix.traced 0 (some "/mnt/a")
      (set_unix_mount_point posix.traced 0 (some "/mnt/a") (lettered_world.traced [])).2).2.fs.2
      = [Call.symlink "/mnt/a" (Path.mnt 2), Call.unlink (Path.mnt 2)] := by
  refine ⟨by decide, by decide⟩

end Mountmgr
